import Mathlib

/-!
# Verification of the egui-selectable-table core engine

A shallow embedding of the library's core data structures and operations
(`src/lib.rs`, `src/row_selection.rs`, `src/auto_reload.rs`, `src/auto_scroll.rs`).

Modelling conventions:
* Rust `HashMap<K, V>` is modelled as an association list `List (K × V)` with
  `alookup` / `aset`; `HashSet<T>` as a `List T` with insert-if-absent
  (`hsInsert`); well-formedness hypotheses record the no-duplicate invariants.
* Rust `i64` row ids are modelled as `Int`, `usize` indices as `Nat`, `u32`
  counters as `Nat` reduced `% 2^32` where incremented.
* `f32` quantities of the auto-scroll controller are modelled as `ℚ`; the
  claims about it are sign/flow properties that do not depend on rounding.
* Code paths that `panic!`/`expect` are modelled by `Option` (`none` = panic);
  Rust loops whose termination depends on data are given explicit fuel and
  return `none` on exhaustion (the Rust code would diverge there).
* `par_sort_by` (a stable comparison sort) is modelled by `List.insertionSort`
  over the comparator-induced relation; the `HashMap::values` iteration order
  feeding the sort is exposed as an explicit list argument constrained to be a
  permutation of the store where the order matters.
-/

namespace EguiSelectableTable

/-- Association-list lookup, modelling `HashMap::get`. -/
def alookup {α β : Type} [DecidableEq α] (k : α) : List (α × β) → Option β
  | [] => none
  | p :: ps => if p.1 = k then some p.2 else alookup k ps

/-- Association-list insert-or-replace, modelling `HashMap::insert`. -/
def aset {α β : Type} [DecidableEq α] (k : α) (v : β) : List (α × β) → List (α × β)
  | [] => [(k, v)]
  | p :: ps => if p.1 = k then (k, v) :: ps else p :: aset k v ps

/-- `HashSet::insert` on the list model: add the element if absent. -/
def hsInsert {α : Type} [DecidableEq α] (x : α) (s : List α) : List α :=
  if x ∈ s then s else x :: s

/-- `HashSet::extend` / `Extend::extend` on the list model. -/
def hsExtend {α : Type} [DecidableEq α] (s : List α) (xs : List α) : List α :=
  xs.foldl (fun acc c => hsInsert c acc) s

/-- Replace the element at an index (out-of-range indices leave the list unchanged),
modelling an update through `get_mut`. -/
def modifyIdx {α : Type} : List α → Nat → (α → α) → List α
  | [], _, _ => []
  | a :: l, 0, f => f a :: l
  | a :: l, n + 1, f => a :: modifyIdx l n f

/-- `idxPairs` with a starting position, recursion helper. -/
def idxPairsFrom {α β : Type} (f : α → β) : Nat → List α → List (β × Nat)
  | _, [] => []
  | n, a :: l => (f a, n) :: idxPairsFrom f (n + 1) l

/-- The reverse-index association list `f value ↦ position` of a list,
modelling `iter().enumerate().map(|(index, row)| (key(row), index)).collect()`. -/
def idxPairs {α β : Type} (f : α → β) (l : List α) : List (β × Nat) :=
  idxPairsFrom f 0 l

/-- `SortOrder` from `lib.rs`. -/
inductive SortOrder
  | Ascending
  | Descending
deriving DecidableEq

/-- `SelectableRow` from `lib.rs`: payload, stable id, selected-column set. -/
structure SelectableRow (Row F : Type) where
  row_data : Row
  id : Int
  selected_columns : List F
deriving DecidableEq

/-- `AutoReload` from `auto_reload.rs`. -/
structure AutoReload where
  reload_after : Option Nat
  reload_count : Nat
deriving DecidableEq

/-- 2^32, the modulus of the `u32` reload counter. -/
def u32Mod : Nat := 4294967296

/-- `AutoReload::increment_count`: bump the counter (u32 arithmetic) and report
whether the threshold was reached, resetting the counter when it was. -/
def AutoReload.increment_count (a : AutoReload) : Bool × AutoReload :=
  let a1 : AutoReload := { a with reload_count := (a.reload_count + 1) % u32Mod }
  match a1.reload_after with
  | some count =>
    if a1.reload_count ≥ count then (true, { a1 with reload_count := 0 })
    else (false, a1)
  | none => (false, a1)

/-- `AutoScroll` from `auto_scroll.rs` (`f32` fields modelled as `ℚ`). -/
structure AutoScroll where
  scroll_offset : ℚ
  enabled : Bool
  distance_from_min : ℚ
  distance_from_max : ℚ
  max_speed : ℚ
deriving DecidableEq

/-- `Default for AutoScroll`. -/
def AutoScroll.default : AutoScroll :=
  { scroll_offset := 0, enabled := false, distance_from_min := 200,
    distance_from_max := 120, max_speed := 30 }

/-- The vertical extent of `max_rect` (only the `y` coordinates are read). -/
structure Rect where
  min_y : ℚ
  max_y : ℚ
deriving DecidableEq

/-- `f32::clamp`. -/
def qclamp (x lo hi : ℚ) : ℚ := if x < lo then lo else if x > hi then hi else x

/-- `AutoScroll::start_scroll`: computes the new vertical offset while a drag is
active. The pointer is modelled by its `y` coordinate. Returns the offset to
apply (if any) together with the updated controller state. -/
def AutoScroll.start_scroll (a : AutoScroll) (max_rect : Rect) (pointer : Option ℚ) :
    Option ℚ × AutoScroll :=
  if a.enabled = false then (none, a)
  else
    match pointer with
    | none => (none, a)
    | some pointer_y =>
      let min_y := max_rect.min_y + a.distance_from_min
      let max_y := max_rect.max_y - a.distance_from_max
      let within_y := pointer_y ≥ min_y ∧ pointer_y ≤ max_y
      let above_y := pointer_y < min_y
      let below_y := pointer_y > max_y
      if ¬within_y then
        if above_y then
          let distance := |min_y - pointer_y|
          let speed_factor := a.max_speed * qclamp (distance / 100) (1 / 10) 1
          let off0 := a.scroll_offset + (-1) * speed_factor
          let off := if off0 < 0 then 0 else off0
          (some off, { a with scroll_offset := off })
        else if below_y then
          let distance := |pointer_y - max_y|
          let speed_factor := a.max_speed * qclamp (distance / 100) (1 / 10) 1
          let off0 := a.scroll_offset + 1 * speed_factor
          let off := if off0 < 0 then 0 else off0
          (some off, { a with scroll_offset := off })
        else (none, a)
      else (none, a)

/-- `SelectableTable` from `lib.rs` (the state fields; the user-supplied column
trait implementations `order_by` / `column_text` are passed explicitly to the
operations that use them). -/
structure TableState (Row F : Type) where
  all_columns : List F
  column_number : List (F × Nat)
  rows : List (Int × SelectableRow Row F)
  formatted_rows : List (SelectableRow Row F)
  sorted_by : F
  sort_order : SortOrder
  drag_started_on : Option (Int × F)
  active_columns : List F
  active_rows : List Int
  last_active_row : Option Int
  last_active_column : Option F
  beyond_drag_point : Bool
  indexed_ids : List (Int × Nat)
  last_id_used : Int
  auto_scroll : AutoScroll
  auto_reload : AutoReload
  select_full_row : Bool
deriving DecidableEq

variable {Row F : Type} [DecidableEq Row] [DecidableEq F]

/-- `SelectableTable::new`. -/
def newTable [Inhabited F] (columns : List F) : TableState Row F :=
  { all_columns := columns
    column_number := columns.enum.foldl (fun m p => aset p.2 p.1 m) []
    rows := []
    formatted_rows := []
    sorted_by := default
    sort_order := SortOrder.Ascending
    drag_started_on := none
    active_columns := []
    active_rows := []
    last_active_row := none
    last_active_column := none
    beyond_drag_point := false
    indexed_ids := []
    last_id_used := 0
    auto_scroll := AutoScroll.default
    auto_reload := { reload_after := none, reload_count := 0 }
    select_full_row := false }

/-- `SelectableTable::clear_all_rows`. -/
def clear_all_rows (s : TableState Row F) : TableState Row F :=
  { s with rows := [], formatted_rows := [], active_rows := [], active_columns := [] }

/-- `SelectableTable::recreate_rows`. -/
def recreate_rows (s : TableState Row F) : TableState Row F :=
  { s with formatted_rows := [], active_rows := [], active_columns := [] }

/-- The values of the row store, modelling `rows.clone().into_values()` in the
canonical (association-list) order. -/
def storeValues (s : TableState Row F) : List (SelectableRow Row F) :=
  s.rows.map Prod.snd

/-- The comparator relation used by `sort_rows`: row `a` may precede row `b`
when the user comparator on the sort column (direction applied, `Descending`
using `Ordering::reverse`) does not return `Greater`. -/
def sortLe (ord : F → Row → Row → Ordering) (sorted_by : F) (so : SortOrder)
    (a b : SelectableRow Row F) : Prop :=
  (match so with
   | SortOrder.Ascending => ord sorted_by a.row_data b.row_data
   | SortOrder.Descending => (ord sorted_by a.row_data b.row_data).swap) ≠ Ordering.gt

instance (ord : F → Row → Row → Ordering) (c : F) (so : SortOrder) :
    DecidableRel (sortLe ord c so) := fun _ _ =>
  inferInstanceAs (Decidable (_ ≠ _))

/-- `SelectableTable::sort_rows` with the values-iteration order exposed:
sort the given materialised rows and rebuild the reverse index. -/
def sortRowsWith (ord : F → Row → Row → Ordering) (s : TableState Row F)
    (row_data : List (SelectableRow Row F)) : TableState Row F :=
  let sorted := List.insertionSort (sortLe ord s.sorted_by s.sort_order) row_data
  { s with indexed_ids := idxPairs (fun r => r.id) sorted, formatted_rows := sorted }

/-- `SelectableTable::sort_rows` (canonical store order). -/
def sort_rows (ord : F → Row → Row → Ordering) (s : TableState Row F) : TableState Row F :=
  sortRowsWith ord s (storeValues s)

/-- `SelectableTable::rows` (the snapshot accessor) with the values-iteration
order exposed: rebuild the snapshot if its length differs from the store. -/
def rowsAccessorWith (ord : F → Row → Row → Ordering) (s : TableState Row F)
    (vals : List (SelectableRow Row F)) :
    List (SelectableRow Row F) × TableState Row F :=
  let s1 := if s.formatted_rows.length ≠ s.rows.length then sortRowsWith ord s vals else s
  (s1.formatted_rows, s1)

/-- `SelectableTable::rows` (canonical store order). -/
def rowsAccessor (ord : F → Row → Row → Ordering) (s : TableState Row F) :
    List (SelectableRow Row F) × TableState Row F :=
  rowsAccessorWith ord s (storeValues s)

/-- The snapshot-staleness criterion of `SelectableTable::rows`
(`formatted_rows.len() != rows.len()`): the next access rebuilds. -/
def snapshotStale (s : TableState Row F) : Prop :=
  s.formatted_rows.length ≠ s.rows.length

instance (s : TableState Row F) : Decidable (snapshotStale s) :=
  inferInstanceAs (Decidable (_ ≠ _))

/-- `SelectableTable::add_modify_row`: run the user mutator over the store,
wrap-and-insert a returned payload under a fresh id, then feed the auto-reload
counter and recreate the shown rows when it fires. -/
def add_modify_row (s : TableState Row F)
    (table : List (Int × SelectableRow Row F) → List (Int × SelectableRow Row F) × Option Row) :
    TableState Row F :=
  let res := table s.rows
  let s1 := { s with rows := res.1 }
  let s2 :=
    match res.2 with
    | some row =>
      let new_row : SelectableRow Row F :=
        { row_data := row, id := s1.last_id_used, selected_columns := [] }
      { s1 with rows := aset new_row.id new_row s1.rows, last_id_used := s1.last_id_used + 1 }
    | none => s1
  let rl := s2.auto_reload.increment_count
  let s3 := { s2 with auto_reload := rl.2 }
  if rl.1 then recreate_rows s3 else s3

/-- `SelectableTable::set_auto_reload`. -/
def set_auto_reload (s : TableState Row F) (count : Option Nat) : TableState Row F :=
  { s with auto_reload := { reload_after := count, reload_count := 0 } }

/-- `SelectableTable::first_column` (`all_columns[0]`, panic on empty → `none`). -/
def first_column (s : TableState Row F) : Option F :=
  s.all_columns.get? 0

/-- `SelectableTable::last_column`. -/
def last_column (s : TableState Row F) : Option F :=
  s.all_columns.get? (s.all_columns.length - 1)

/-- `SelectableTable::column_to_num` (`expect` on a missing column → `none`). -/
def column_to_num (s : TableState Row F) (column : F) : Option Nat :=
  alookup column s.column_number

/-- `SelectableTable::next_column` (wraps from the last column to the first). -/
def next_column (s : TableState Row F) (column : F) : Option F :=
  match column_to_num s column with
  | none => none
  | some n =>
    if n = s.all_columns.length - 1 then s.all_columns.get? 0 else s.all_columns.get? (n + 1)

/-- `SelectableTable::previous_column` (wraps from the first column to the last). -/
def previous_column (s : TableState Row F) (column : F) : Option F :=
  match column_to_num s column with
  | none => none
  | some n =>
    if n = 0 then s.all_columns.get? (s.all_columns.length - 1) else s.all_columns.get? (n - 1)

/-- The `while let Some(col) = ongoing_val` loop of `select_dragged_row_cell`
that accumulates the column span from the drag-start column to the current
column. Fuel bounds the walk; the Rust loop diverges when the target column is
unreachable, modelled by `none`. -/
def spanWalk (s : TableState Row F) (get_previous : Bool) (column_name : F) :
    Nat → F → List F → Option (List F)
  | 0, _, _ => none
  | fuel + 1, col, acc =>
    match (if get_previous then next_column s col else previous_column s col) with
    | none => none
    | some next =>
      let acc1 := hsInsert col acc
      if next = column_name then some (hsInsert next acc1)
      else spanWalk s get_previous column_name fuel next acc1

/-- `SelectableTable::check_row_selection` (the outward row-range repair walk),
with explicit fuel for the recursion (the call site passes the snapshot
length, which bounds the recursion depth). -/
def check_row_selection :
    TableState Row F → Bool → Nat → Nat → Nat → Option (TableState Row F)
  | _, _, _, _, 0 => none
  | s, check_previous, index, drag_start, fuel + 1 =>
    if index = 0 ∧ check_previous = true then some s
    else if index + 1 = s.formatted_rows.length ∧ check_previous = false then some s
    else
      let index1 := if check_previous then index - 1 else index + 1
      match s.formatted_rows.get? index1 with
      | none => none
      | some current_row =>
        let unselected_row :=
          if (check_previous = true ∧ index1 ≥ drag_start) ∨
             (check_previous = false ∧ index1 ≤ drag_start) then false
          else current_row.selected_columns.isEmpty
        if unselected_row = false then
          let s1 := { s with
            formatted_rows := modifyIdx s.formatted_rows index1 (fun r =>
              { r with selected_columns :=
                  if s.select_full_row then hsExtend r.selected_columns s.all_columns
                  else s.active_columns })
            active_rows := hsInsert current_row.id s.active_rows }
          if check_previous then
            if index1 ≠ 0 then check_row_selection s1 check_previous index1 drag_start fuel
            else some s1
          else if index1 + 1 ≠ s1.formatted_rows.length then
            check_row_selection s1 check_previous index1 drag_start fuel
          else some s1
        else some s

/-- The loop body of `remove_row_selection`, iterating over the cloned
active-row set: rows inside the drag span get the active columns applied,
rows outside are cleared and deactivated unless ctrl is held. -/
def removeRowLoop (current_index drag_start : Nat) (is_ctrl_pressed : Bool) :
    TableState Row F → List Int → Option (TableState Row F)
  | s, [] => some s
  | s, id :: rest =>
    match alookup id s.indexed_ids with
    | none => none
    | some ongoing_index =>
    match s.formatted_rows.get? ongoing_index with
    | none => none
    | some target_row =>
    let sel := if s.select_full_row then hsExtend target_row.selected_columns s.all_columns
               else s.active_columns
    let s1 :=
      if current_index > drag_start then
        if ongoing_index ≥ drag_start ∧ ongoing_index ≤ current_index then
          { s with formatted_rows := modifyIdx s.formatted_rows ongoing_index (fun r =>
              { r with selected_columns := sel }) }
        else if is_ctrl_pressed = false then
          { s with
            formatted_rows := modifyIdx s.formatted_rows ongoing_index (fun r =>
              { r with selected_columns := [] })
            active_rows := s.active_rows.erase target_row.id }
        else s
      else
        if ongoing_index ≤ drag_start ∧ ongoing_index ≥ current_index then
          { s with formatted_rows := modifyIdx s.formatted_rows ongoing_index (fun r =>
              { r with selected_columns := sel }) }
        else if is_ctrl_pressed = false then
          { s with
            formatted_rows := modifyIdx s.formatted_rows ongoing_index (fun r =>
              { r with selected_columns := [] })
            active_rows := s.active_rows.erase target_row.id }
        else s
    removeRowLoop current_index drag_start is_ctrl_pressed s1 rest

/-- `SelectableTable::remove_row_selection`. -/
def remove_row_selection (s : TableState Row F) (current_index drag_start : Nat)
    (is_ctrl_pressed : Bool) : Option (TableState Row F) :=
  removeRowLoop current_index drag_start is_ctrl_pressed s s.active_rows

/-- `SelectableTable::select_single_row_cell`. -/
def select_single_row_cell (s : TableState Row F) (id : Int) (column_name : F) :
    Option (TableState Row F) :=
  let s0 := { s with active_columns := hsInsert column_name s.active_columns,
                     active_rows := hsInsert id s.active_rows }
  match alookup id s0.indexed_ids with
  | none => none
  | some target_index =>
  match s0.formatted_rows.get? target_index with
  | none => none
  | some _ =>
  let s1 :=
    if s0.select_full_row then
      { s0 with
        active_columns := hsExtend s0.active_columns s0.all_columns
        formatted_rows := modifyIdx s0.formatted_rows target_index (fun r =>
          { r with selected_columns := hsExtend r.selected_columns s0.all_columns }) }
    else
      { s0 with formatted_rows := modifyIdx s0.formatted_rows target_index (fun r =>
          { r with selected_columns := hsInsert column_name r.selected_columns }) }
  some { s1 with active_rows := hsInsert id s1.active_rows }

/-- The final phase of `select_dragged_row_cell`: re-resolve the current and
drag-start row positions, run the two `check_row_selection` walks unless the
previous phase said to skip them, and hand over to `remove_row_selection`. -/
def dragFinish (id : Int) (is_ctrl_pressed : Bool) (drag_start : Int × F)
    (step : TableState Row F × Bool) : Option (TableState Row F) :=
  let s4 := step.1
  let no_checking := step.2
  match alookup id s4.indexed_ids with
  | none => none
  | some current_row_index2 =>
  match alookup drag_start.1 s4.indexed_ids with
  | none => none
  | some drag_start_index =>
  let os5 : Option (TableState Row F) :=
    if no_checking then some s4
    else
      match check_row_selection s4 true current_row_index2 drag_start_index
        s4.formatted_rows.length with
      | none => none
      | some sa =>
        check_row_selection sa false current_row_index2 drag_start_index
          sa.formatted_rows.length
  match os5 with
  | none => none
  | some s5 =>
  remove_row_selection s5 current_row_index2 drag_start_index is_ctrl_pressed

/-- The row phase of `select_dragged_row_cell`, entered after the active-column
set has been updated: dedupe against the last touched cell, update the
selection of the current and previously touched rows, then finish with
`dragFinish`. -/
def dragTail (id : Int) (column_name : F) (is_ctrl_pressed : Bool)
    (drag_start : Int × F) (s1 : TableState Row F) : Option (TableState Row F) :=
  match alookup id s1.indexed_ids with
  | none => none
  | some current_row_index =>
  match s1.formatted_rows.get? current_row_index with
  | none => none
  | some current_row =>
  let row_contains_column := current_row.selected_columns.contains column_name
  let ostep : Option (TableState Row F × Bool) :=
    if row_contains_column = true ∧ s1.last_active_row.isSome = true ∧
       s1.last_active_column.isSome = true then
      match s1.last_active_column, s1.last_active_row with
      | none, _ => none
      | _, none => none
      | some last_active_column, some last_active_row =>
        let s2 :=
          if last_active_column ≠ column_name ∧ last_active_row = id then
            { s1 with
              formatted_rows := modifyIdx s1.formatted_rows current_row_index (fun r =>
                { r with selected_columns := r.selected_columns.erase last_active_column })
              active_columns := s1.active_columns.erase last_active_column }
          else s1
        match alookup last_active_row s2.indexed_ids with
        | none => none
        | some last_row_index =>
        match s2.formatted_rows.get? last_row_index with
        | none => none
        | some last_row =>
        let s3 := { s2 with last_active_row := some id }
        if id = last_row.id then
          if last_active_column ≠ column_name then
            some ({ s3 with last_active_column := some column_name }, false)
          else some (s3, false)
        else
          some ({ s3 with
              formatted_rows := modifyIdx s3.formatted_rows last_row_index
                (fun r => { r with selected_columns := [] }) }, true)
    else
      some ({ s1 with
              active_rows := hsInsert current_row.id s1.active_rows
              last_active_row := some id
              last_active_column := some column_name
              formatted_rows := modifyIdx s1.formatted_rows current_row_index (fun r =>
                { r with selected_columns := s1.active_columns }) }, false)
  match ostep with
  | none => none
  | some step =>
  dragFinish id is_ctrl_pressed drag_start step

/-- `SelectableTable::select_dragged_row_cell` (`ctrl` passed explicitly). -/
def select_dragged_row_cell (s : TableState Row F) (id : Int) (column_name : F)
    (is_ctrl_pressed : Bool) : Option (TableState Row F) :=
  if s.last_active_row = some id ∧ s.last_active_column = some column_name then some s
  else if s.formatted_rows.isEmpty then some s
  else
    let s0 := { s with active_columns := hsInsert column_name s.active_columns,
                       beyond_drag_point := true }
    match s0.drag_started_on with
    | none => none
    | some drag_start =>
    match column_to_num s0 drag_start.2 with
    | none => none
    | some drag_start_num =>
    match column_to_num s0 column_name with
    | none => none
    | some ongoing_column_num =>
    let get_previous := ongoing_column_num > drag_start_num
    let os1 : Option (TableState Row F) :=
      if is_ctrl_pressed then
        some { s0 with active_columns := hsInsert column_name s0.active_columns }
      else if ongoing_column_num = drag_start_num then
        some { s0 with active_columns := hsInsert drag_start.2 [] }
      else
        match spanWalk s0 get_previous column_name (s0.all_columns.length + 1)
          drag_start.2 [] with
        | none => none
        | some new_column_set => some { s0 with active_columns := new_column_set }
    match os1 with
    | none => none
    | some s1 =>
    dragTail id column_name is_ctrl_pressed drag_start s1

/-- The per-row clearing loop of `unselect_all` over the active-row set. -/
def unselectLoop : TableState Row F → List Int → Option (TableState Row F)
  | s, [] => some s
  | s, id :: rest =>
    match alookup id s.indexed_ids with
    | none => none
    | some id_index =>
    match s.formatted_rows.get? id_index with
    | none => none
    | some _ =>
    unselectLoop
      { s with formatted_rows := modifyIdx s.formatted_rows id_index (fun r =>
          { r with selected_columns := [] }) } rest

/-- `SelectableTable::unselect_all`. -/
def unselect_all (s : TableState Row F) : Option (TableState Row F) :=
  match unselectLoop s s.active_rows with
  | none => none
  | some s1 =>
    some { s1 with active_columns := [], last_active_row := none,
                   last_active_column := none, active_rows := [] }

/-- `SelectableTable::select_all`. -/
def select_all (s : TableState Row F) : TableState Row F :=
  { s with
    formatted_rows := s.formatted_rows.map (fun r =>
      { r with selected_columns := hsExtend r.selected_columns s.all_columns })
    active_columns := hsExtend s.active_columns s.all_columns
    active_rows := hsExtend s.active_rows (s.formatted_rows.map (fun r => r.id))
    last_active_row := none
    last_active_column := none }

/-- `SelectableTable::change_sort_order`. -/
def change_sort_order (s : TableState Row F) : Option (TableState Row F) :=
  match unselect_all s with
  | none => none
  | some s1 =>
    some { s1 with sort_order :=
      match s1.sort_order with
      | SortOrder.Ascending => SortOrder.Descending
      | SortOrder.Descending => SortOrder.Ascending }

/-- `SelectableTable::change_sorted_by`. -/
def change_sorted_by (s : TableState Row F) (sort_by : F) : Option (TableState Row F) :=
  match unselect_all s with
  | none => none
  | some s1 => some { s1 with sorted_by := sort_by, sort_order := SortOrder.Ascending }

/-- `entry(col).or_insert(0)` followed by the conditional `insert` of
`copy_selected_cells`: record a column text length if it beats the maximum. -/
def updMaxLen (m : List (F × Nat)) (c : F) (len : Nat) : List (F × Nat) :=
  let cur := (alookup c m).getD 0
  let m1 := match alookup c m with
    | some _ => m
    | none => aset c 0 m
  if len > cur then aset c len m1 else m1

/-- First pass of `copy_selected_cells`, per row: fold the active columns,
recording text lengths for the columns this row has selected. -/
def rowMaxStep (ctext : F → Row → String) (r : SelectableRow Row F)
    (m : List (F × Nat)) (cols : List F) : List (F × Nat) :=
  cols.foldl (fun acc column =>
    if column ∈ r.selected_columns then
      updMaxLen acc column (ctext column r.row_data).length
    else acc) m

/-- First pass of `copy_selected_cells`: collect the rows with a selection in
display order (stopping once `active_rows.len()` rows were found) and the
per-column maximum text lengths. -/
def collectRows (s : TableState Row F) (ctext : F → Row → String) :
    List (SelectableRow Row F) → List (SelectableRow Row F) → List (F × Nat) →
    List (SelectableRow Row F) × List (F × Nat)
  | [], acc, m => (acc.reverse, m)
  | r :: rest, acc, m =>
    if r.selected_columns.isEmpty then collectRows s ctext rest acc m
    else
      let m1 := rowMaxStep ctext r m s.active_columns
      let acc1 := r :: acc
      if acc1.length = s.active_rows.length then (acc1.reverse, m1)
      else collectRows s ctext rest acc1 m1

/-- `format!("{:<width$}", str)`: left-justify in a field of the given width
(no truncation when the text is longer). -/
def padTo (str : String) (width : Nat) : String :=
  str ++ String.mk (List.replicate (width - str.length) (Char.ofNat 32))

/-- The text emitted for one (row, column) cell in the second pass of
`copy_selected_cells`: the padded cell text when selected, a blank field of the
same width when the column is active but unselected for this row, nothing when
the column is inactive. Looking up a missing width entry is the Rust
`column_max_length[..]` panic, modelled by `none`. -/
def fieldFor (s : TableState Row F) (ctext : F → Row → String) (m : List (F × Nat))
    (r : SelectableRow Row F) (c : F) : Option String :=
  if c ∈ s.active_columns ∧ c ∈ r.selected_columns then
    match alookup c m with
    | none => none
    | some w => some (padTo (ctext c r.row_data) (w + 1))
  else if c ∈ s.active_columns ∧ c ∉ r.selected_columns then
    match alookup c m with
    | none => none
    | some w => some (padTo "" (w + 1))
  else some ""

/-- The `loop` of `copy_selected_cells` that walks the columns from
`first_column` to `last_column` building one row's text (fuel bounds the
walk by the number of columns). -/
def rowTextLoop (s : TableState Row F) (ctext : F → Row → String) (m : List (F × Nat))
    (r : SelectableRow Row F) : Nat → F → String → Option String
  | 0, _, _ => none
  | fuel + 1, ongoing_column, acc =>
    match fieldFor s ctext m r ongoing_column with
    | none => none
    | some fld =>
    let acc1 := acc ++ fld
    match last_column s with
    | none => none
    | some lc =>
    if lc = ongoing_column then some acc1
    else
      match next_column s ongoing_column with
      | none => none
      | some nc => rowTextLoop s ctext m r fuel nc acc1

/-- The `for row in selected_rows` emission loop of `copy_selected_cells`,
appending one newline-terminated line per selected row. -/
def copyLinesLoop (s : TableState Row F) (ctext : F → Row → String)
    (m : List (F × Nat)) : List (SelectableRow Row F) → String → Option String
  | [], acc => some acc
  | r :: rest, acc =>
    match first_column s with
    | none => none
    | some fc =>
    match rowTextLoop s ctext m r s.all_columns.length fc "" with
    | none => none
    | some row_text =>
      copyLinesLoop s ctext m rest (acc ++ row_text ++ String.mk [Char.ofNat 10])

/-- `SelectableTable::copy_selected_cells`, returning the formatted clipboard
string (the host hands it to the OS clipboard). -/
def copy_selected_cells (s : TableState Row F) (ctext : F → Row → String) :
    Option String :=
  let s0 := if s.select_full_row then
    { s with active_columns := hsExtend s.active_columns s.all_columns } else s
  let res := collectRows s0 ctext s0.formatted_rows [] []
  let selected_rows := res.1
  let column_max_length := res.2
  copyLinesLoop s0 ctext column_max_length selected_rows ""

/-- A concrete two-column, one-row table (columns `[0, 1]`, auto-reload
threshold `2`) used to instantiate theorems with hypotheses. -/
def auto_reload_witness_state : TableState Nat Nat :=
  let r : SelectableRow Nat Nat := { row_data := 5, id := 0, selected_columns := [] }
  { set_auto_reload ((newTable [0, 1] : TableState Nat Nat)) (some 2) with
    rows := [(0, r)], formatted_rows := [r], indexed_ids := [(0, 0)], last_id_used := 1 }

/-- A mutator passed to `add_modify_row` that edits rows in place: it returns
no new payload and leaves the number of stored rows unchanged. -/
def SizePreservingMut (m : List (Int × SelectableRow Row F) →
    List (Int × SelectableRow Row F) × Option Row) : Prop :=
  ∀ st, (m st).2 = none ∧ ((m st).1).length = st.length

/-- Iterated calls of the mutation entry point. -/
def applyMuts (s : TableState Row F)
    (ms : List (List (Int × SelectableRow Row F) →
      List (Int × SelectableRow Row F) × Option Row)) : TableState Row F :=
  ms.foldl add_modify_row s

/-- Well-formedness of the column bookkeeping: the fixed column list is
non-empty and duplicate-free, and `column_number` is its enumeration index
(as built by `SelectableTable::new`). -/
def WFcols (s : TableState Row F) : Prop :=
  s.all_columns ≠ [] ∧ s.all_columns.Nodup ∧
  s.column_number = idxPairs (fun c => c) s.all_columns

/-- Well-formedness of the snapshot bookkeeping: `indexed_ids` is the reverse
index of `formatted_rows` (as rebuilt by `sort_rows`) and the snapshot row ids
are duplicate-free. -/
def WFidx (s : TableState Row F) : Prop :=
  s.indexed_ids = idxPairs (fun r => r.id) s.formatted_rows ∧
  (s.formatted_rows.map (fun r => r.id)).Nodup

/-- The active-row bookkeeping: the active-row set (a Rust `HashSet`) is
duplicate-free in the list model and every active row id is present in the
snapshot. -/
def WFactive (s : TableState Row F) : Prop :=
  s.active_rows.Nodup ∧
  ∀ i ∈ s.active_rows, i ∈ s.formatted_rows.map (fun r => r.id)

instance (s : TableState Row F) : Decidable (WFcols s) := by
  unfold WFcols
  infer_instance

instance (s : TableState Row F) : Decidable (WFidx s) := by
  unfold WFidx
  infer_instance

instance (s : TableState Row F) : Decidable (WFactive s) := by
  unfold WFactive
  infer_instance

/-- The selection invariant of claim C10: every snapshot row with a non-empty
selected-column set has its id in the active-row set. -/
def SelInv (s : TableState Row F) : Prop :=
  ∀ r ∈ s.formatted_rows, r.selected_columns ≠ [] → r.id ∈ s.active_rows

instance (s : TableState Row F) : Decidable (SelInv s) := by
  unfold SelInv
  infer_instance

/-- A concrete two-column, two-row table with one selected cell, used to
instantiate selection theorems. -/
def sel_witness_state : TableState Nat Nat :=
  { all_columns := [0, 1]
    column_number := [(0, 0), (1, 1)]
    rows := [(0, ⟨10, 0, [1]⟩), (1, ⟨20, 1, []⟩)]
    formatted_rows := [⟨10, 0, [1]⟩, ⟨20, 1, []⟩]
    sorted_by := 0
    sort_order := SortOrder.Ascending
    drag_started_on := none
    active_columns := [1]
    active_rows := [0]
    last_active_row := none
    last_active_column := none
    beyond_drag_point := false
    indexed_ids := [(0, 0), (1, 1)]
    last_id_used := 2
    auto_scroll := AutoScroll.default
    auto_reload := { reload_after := none, reload_count := 0 }
    select_full_row := false }

/-- A concrete total-order comparator on `Bool` row payloads (false before
true), used to instantiate the sort theorems. -/
def c5_ord : Nat → Bool → Bool → Ordering := fun _ a b =>
  if a = b then Ordering.eq else if a = false then Ordering.lt else Ordering.gt

/-- A concrete two-row table over `Bool` payloads, sorted ascending by
`c5_ord`, with no selection. -/
def c5_witness_state : TableState Bool Nat :=
  { all_columns := [0, 1]
    column_number := [(0, 0), (1, 1)]
    rows := [(0, ⟨false, 0, []⟩), (1, ⟨true, 1, []⟩)]
    formatted_rows := [⟨false, 0, []⟩, ⟨true, 1, []⟩]
    sorted_by := 0
    sort_order := SortOrder.Ascending
    drag_started_on := none
    active_columns := []
    active_rows := []
    last_active_row := none
    last_active_column := none
    beyond_drag_point := false
    indexed_ids := [(0, 0), (1, 1)]
    last_id_used := 2
    auto_scroll := AutoScroll.default
    auto_reload := { reload_after := none, reload_count := 0 }
    select_full_row := false }

/-- A concrete column-text extractor for `Nat` payloads, giving a short and a
long string. -/
def c9_ctext : Nat → Nat → String := fun _ n => if n = 10 then "aaaa" else "b"

/-- A concrete two-row table where both rows select column `1` with texts of
different lengths, used to instantiate the clipboard-formatting theorem. -/
def c9_witness_state : TableState Nat Nat :=
  { all_columns := [0, 1]
    column_number := [(0, 0), (1, 1)]
    rows := [(0, ⟨10, 0, [1]⟩), (1, ⟨20, 1, [1]⟩)]
    formatted_rows := [⟨10, 0, [1]⟩, ⟨20, 1, [1]⟩]
    sorted_by := 0
    sort_order := SortOrder.Ascending
    drag_started_on := none
    active_columns := [1]
    active_rows := [0, 1]
    last_active_row := none
    last_active_column := none
    beyond_drag_point := false
    indexed_ids := [(0, 0), (1, 1)]
    last_id_used := 2
    auto_scroll := AutoScroll.default
    auto_reload := { reload_after := none, reload_count := 0 }
    select_full_row := false }

/-- Specification helper for the clipboard formatter: the concatenation of the
per-column fields of one row, in the given column order (`none` if any field
lookup panics). Used to state what `rowTextLoop` computes. -/
def fieldsConcat (s : TableState Row F) (ctext : F → Row → String) (m : List (F × Nat))
    (r : SelectableRow Row F) : List F → Option String
  | [] => some ""
  | c :: cs =>
    match fieldFor s ctext m r c, fieldsConcat s ctext m r cs with
    | some f, some rest => some (f ++ rest)
    | _, _ => none

/-- One step of the drag-selection pipeline, as a relation: the snapshot keeps
its row ids and order, the reverse index is untouched, the active-row set only
grows and stays duplicate-free, and the selection invariant is preserved. -/
def DragStep (s t : TableState Row F) : Prop :=
  t.formatted_rows.map (fun r => r.id) = s.formatted_rows.map (fun r => r.id) ∧
  t.indexed_ids = s.indexed_ids ∧
  (s.active_rows.Nodup → t.active_rows.Nodup) ∧
  (SelInv s → SelInv t) ∧
  (∀ i ∈ s.active_rows, i ∈ t.active_rows)

/-- What one pass of the `remove_row_selection` loop guarantees: snapshot row
ids and order kept, reverse index untouched, the selection invariant holds
afterwards, active-row duplicate-freeness is preserved, the active-row set only
shrinks, and under ctrl it is untouched. -/
def RemoveStepOut (ctrl : Bool) (s t : TableState Row F) : Prop :=
  t.formatted_rows.map (fun r => r.id) = s.formatted_rows.map (fun r => r.id) ∧
  t.indexed_ids = s.indexed_ids ∧ SelInv t ∧
  (s.active_rows.Nodup → t.active_rows.Nodup) ∧
  (ctrl = true → t.active_rows = s.active_rows) ∧
  (∀ i ∈ t.active_rows, i ∈ s.active_rows)

/-- Whether the cell at snapshot position `pos`, column `c` is selected
(`none` when the position is out of range). -/
def cellSelected (s : TableState Row F) (pos : Nat) (c : F) : Option Bool :=
  (s.formatted_rows.get? pos).map (fun r => r.selected_columns.contains c)

/-- A three-column, two-row table in the middle of a ctrl-drag that started on
cell (row id 1, column 0): nothing selected yet, pointer yet to move. -/
def c2_start : TableState Nat Nat :=
  { all_columns := [0, 1, 2]
    column_number := [(0, 0), (1, 1), (2, 2)]
    rows := [(0, ⟨0, 0, []⟩), (1, ⟨0, 1, []⟩)]
    formatted_rows := [⟨0, 0, []⟩, ⟨0, 1, []⟩]
    sorted_by := 0
    sort_order := SortOrder.Ascending
    drag_started_on := some (1, 0)
    active_columns := []
    active_rows := []
    last_active_row := none
    last_active_column := none
    beyond_drag_point := false
    indexed_ids := [(0, 0), (1, 1)]
    last_id_used := 2
    auto_scroll := AutoScroll.default
    auto_reload := { reload_after := none, reload_count := 0 }
    select_full_row := false }

/-- The `c2_start` table with the drag-start row already active, used to
instantiate the ctrl-drag monotonicity theorem. -/
def c2_mid : TableState Nat Nat :=
  { c2_start with active_rows := [1] }

/-- Betweenness of a position and two anchor positions, inclusive. -/
def btw (a b p : Nat) : Prop := min a b ≤ p ∧ p ≤ max a b

instance (a b p : Nat) : Decidable (btw a b p) := by
  unfold btw
  infer_instance

/-- A clean three-row, four-column table right after the start of an
unmodified drag gesture on cell (row id 0, column 0): nothing selected and no
last-touched cell, as `handle_table_body` leaves it (it runs `unselect_all`
on an unmodified drag start). -/
def c1_start : TableState Nat Nat :=
  { all_columns := [0, 1, 2, 3]
    column_number := [(0, 0), (1, 1), (2, 2), (3, 3)]
    rows := [(0, ⟨0, 0, []⟩), (1, ⟨0, 1, []⟩), (2, ⟨0, 2, []⟩)]
    formatted_rows := [⟨0, 0, []⟩, ⟨0, 1, []⟩, ⟨0, 2, []⟩]
    sorted_by := 0
    sort_order := SortOrder.Ascending
    drag_started_on := some (0, 0)
    active_columns := []
    active_rows := []
    last_active_row := none
    last_active_column := none
    beyond_drag_point := false
    indexed_ids := [(0, 0), (1, 1), (2, 2)]
    last_id_used := 3
    auto_scroll := AutoScroll.default
    auto_reload := { reload_after := none, reload_count := 0 }
    select_full_row := false }

/-- Shape of the snapshot selections during a drag repair walk: rows at
positions satisfying `P` carry exactly the working column set `A`, all other
rows are unselected. -/
def SelShape (t : TableState Row F) (A : List F) (P : Nat → Prop) : Prop :=
  ∀ p r, t.formatted_rows.get? p = some r →
    (P p → r.selected_columns = A) ∧ (¬ P p → r.selected_columns = [])

/-- Shape of the active-row set during a drag repair walk: exactly the ids of
the rows at positions satisfying `P`. -/
def ActShape (t : TableState Row F) (P : Nat → Prop) : Prop :=
  ∀ j, j ∈ t.active_rows ↔
    ∃ p r, t.formatted_rows.get? p = some r ∧ r.id = j ∧ P p

theorem hsInsert_mem {α : Type} [DecidableEq α] {x y : α} {s : List α} :
    y ∈ hsInsert x s ↔ y = x ∨ y ∈ s := by
  unfold hsInsert
  split
  · constructor
    · exact fun h => Or.inr h
    · rintro (rfl | h) <;> assumption
  · simp [List.mem_cons]

theorem hsInsert_nodup {α : Type} [DecidableEq α] {x : α} {s : List α} (h : s.Nodup) :
    (hsInsert x s).Nodup := by
  unfold hsInsert
  split
  · exact h
  · exact List.nodup_cons.mpr ⟨by assumption, h⟩

theorem hsExtend_mem {α : Type} [DecidableEq α] {y : α} :
    ∀ (xs s : List α), y ∈ hsExtend s xs ↔ y ∈ s ∨ y ∈ xs := by
  intro xs
  induction xs with
  | nil => intro s; simp [hsExtend]
  | cons x xs ih =>
    intro s
    have hstep : hsExtend s (x :: xs) = hsExtend (hsInsert x s) xs := rfl
    rw [hstep, ih, hsInsert_mem]
    simp only [List.mem_cons]
    tauto

theorem hsExtend_nodup {α : Type} [DecidableEq α] :
    ∀ (xs s : List α), s.Nodup → (hsExtend s xs).Nodup := by
  intro xs
  induction xs with
  | nil => intro s h; exact h
  | cons x xs ih => intro s h; exact ih (hsInsert x s) (hsInsert_nodup h)

theorem modifyIdx_length {α : Type} (f : α → α) :
    ∀ (l : List α) (i : Nat), (modifyIdx l i f).length = l.length := by
  intro l
  induction l with
  | nil => intro i; rfl
  | cons a l ih =>
    intro i
    cases i with
    | zero => rfl
    | succ n => simp only [modifyIdx, List.length_cons, ih]

theorem get?_modifyIdx_self {α : Type} (f : α → α) :
    ∀ (l : List α) (i : Nat) (a : α), l.get? i = some a →
    (modifyIdx l i f).get? i = some (f a) := by
  intro l
  induction l with
  | nil => intro i a h; simp at h
  | cons x l ih =>
    intro i a h
    cases i with
    | zero =>
      simp only [List.get?_cons_zero, Option.some.injEq] at h
      simp only [modifyIdx, List.get?_cons_zero, h]
    | succ n =>
      simp only [List.get?_cons_succ] at h
      simpa only [modifyIdx, List.get?_cons_succ] using ih n a h

theorem get?_modifyIdx_ne {α : Type} (f : α → α) :
    ∀ (l : List α) (i j : Nat), j ≠ i → (modifyIdx l i f).get? j = l.get? j := by
  intro l
  induction l with
  | nil => intro i j _; rfl
  | cons x l ih =>
    intro i j hne
    cases i with
    | zero =>
      cases j with
      | zero => exact absurd rfl hne
      | succ m => simp only [modifyIdx, List.get?_cons_succ]
    | succ n =>
      cases j with
      | zero => simp only [modifyIdx, List.get?_cons_zero]
      | succ m =>
        simp only [modifyIdx, List.get?_cons_succ]
        exact ih n m (fun h => hne (by rw [h]))

theorem map_modifyIdx {α β : Type} (g : α → β) (f : α → α) (hgf : ∀ a, g (f a) = g a) :
    ∀ (l : List α) (i : Nat), (modifyIdx l i f).map g = l.map g := by
  intro l
  induction l with
  | nil => intro i; rfl
  | cons x l ih =>
    intro i
    cases i with
    | zero => simp only [modifyIdx, List.map_cons, hgf]
    | succ n => simp only [modifyIdx, List.map_cons, ih]

theorem idxPairsFrom_map_eq {α β : Type} (f : α → β) :
    ∀ (l l2 : List α) (n : Nat), l.map f = l2.map f →
    idxPairsFrom f n l = idxPairsFrom f n l2 := by
  intro l
  induction l with
  | nil =>
    intro l2 n h
    cases l2 with
    | nil => rfl
    | cons b l2 => simp at h
  | cons a l ih =>
    intro l2 n h
    cases l2 with
    | nil => simp at h
    | cons b l2 =>
      simp only [List.map_cons, List.cons.injEq] at h
      simp only [idxPairsFrom, h.1, ih l2 (n + 1) h.2]

theorem alookup_idxPairsFrom_some {α β : Type} [DecidableEq β] (f : α → β) :
    ∀ (l : List α) (n : Nat) (b : β) (i : Nat),
    alookup b (idxPairsFrom f n l) = some i →
    ∃ j a, l.get? j = some a ∧ f a = b ∧ i = n + j := by
  intro l
  induction l with
  | nil => intro n b i h; simp [idxPairsFrom, alookup] at h
  | cons a l ih =>
    intro n b i h
    unfold idxPairsFrom alookup at h
    split at h
    · injection h with h
      exact ⟨0, a, by simp, by assumption, by omega⟩
    · obtain ⟨j, c, hg, hf, hi⟩ := ih (n + 1) b i h
      exact ⟨j + 1, c, by simpa using hg, hf, by omega⟩

theorem alookup_idxPairsFrom_of_get {α β : Type} [DecidableEq β] (f : α → β) :
    ∀ (l : List α) (n i : Nat) (a : α), (l.map f).Nodup → l.get? i = some a →
    alookup (f a) (idxPairsFrom f n l) = some (n + i) := by
  intro l
  induction l with
  | nil => intro n i a _ h; simp at h
  | cons c l ih =>
    intro n i a hnd hget
    rw [List.map_cons, List.nodup_cons] at hnd
    cases i with
    | zero =>
      simp only [List.get?_cons_zero, Option.some.injEq] at hget
      subst hget
      simp [idxPairsFrom, alookup]
    | succ m =>
      simp only [List.get?_cons_succ] at hget
      have hne : f c ≠ f a := by
        intro hcontra
        exact hnd.1 (hcontra ▸ List.mem_map_of_mem f (List.get?_mem hget))
      unfold idxPairsFrom alookup
      rw [if_neg hne, ih (n + 1) m a hnd.2 hget]
      congr 1
      omega

theorem nodup_map_get_ne {α β : Type} (f : α → β) (l : List α)
    (h : (l.map f).Nodup) {j k : Nat} {a b : α}
    (hj : l.get? j = some a) (hk : l.get? k = some b) (hne : j ≠ k) : f a ≠ f b := by
  intro heq
  have hmj : (l.map f).get? j = some (f a) := by rw [List.get?_map, hj]; rfl
  have hmk : (l.map f).get? k = some (f b) := by rw [List.get?_map, hk]; rfl
  have hjlt : j < (l.map f).length := by
    rcases List.get?_eq_some.mp hmj with ⟨hlt, _⟩
    exact hlt
  exact hne (List.get?_inj hjlt h (by rw [hmj, hmk, heq]))

theorem clampZero_nonneg (x : ℚ) : 0 ≤ (if x < 0 then 0 else x) := by
  split
  · exact le_refl 0
  · exact le_of_not_lt (by assumption)

theorem start_scroll_offset_nonneg (a : AutoScroll) (mr : Rect) (p : Option ℚ)
    (h : 0 ≤ a.scroll_offset) : 0 ≤ ((AutoScroll.start_scroll a mr p).2).scroll_offset := by
  unfold AutoScroll.start_scroll
  split
  · exact h
  · cases p with
    | none => exact h
    | some y =>
      dsimp only
      split_ifs <;> dsimp only <;>
        first
          | exact h
          | exact le_refl 0
          | exact le_of_not_lt (by assumption)

theorem start_scroll_disabled (a : AutoScroll) (mr : Rect) (p : Option ℚ)
    (h : a.enabled = false) : AutoScroll.start_scroll a mr p = (none, a) := by
  unfold AutoScroll.start_scroll
  rw [if_pos h]

/-- C8: across every sequence of `start_scroll` calls the auto-scroll offset
never becomes negative (starting from a non-negative offset, e.g. the default
`0.0`), and whenever auto-scrolling is disabled `start_scroll` returns no
offset change and leaves the stored offset untouched, regardless of pointer
position. -/
theorem auto_scroll_never_negative_and_inert_when_disabled :
    (∀ (inputs : List (Rect × Option ℚ)) (a : AutoScroll), 0 ≤ a.scroll_offset →
      0 ≤ (inputs.foldl (fun st i => (AutoScroll.start_scroll st i.1 i.2).2) a).scroll_offset) ∧
    (∀ (a : AutoScroll) (mr : Rect) (p : Option ℚ), a.enabled = false →
      AutoScroll.start_scroll a mr p = (none, a)) := by
  constructor
  · intro inputs
    induction inputs with
    | nil => exact fun a h => h
    | cons i rest ih =>
      intro a h
      exact ih _ (start_scroll_offset_nonneg a i.1 i.2 h)
  · exact start_scroll_disabled

/-- Witness for C8 at a concrete controller state and input list. -/
theorem auto_scroll_never_negative_witness :
    0 ≤ (([(({ min_y := 0, max_y := 300 } : Rect), some (500 : ℚ))].foldl
      (fun st i => (AutoScroll.start_scroll st i.1 i.2).2) AutoScroll.default).scroll_offset) ∧
    AutoScroll.start_scroll AutoScroll.default { min_y := 0, max_y := 300 } (some 500) =
      (none, AutoScroll.default) := by
  constructor
  · exact auto_scroll_never_negative_and_inert_when_disabled.1 _ AutoScroll.default (le_refl 0)
  · exact auto_scroll_never_negative_and_inert_when_disabled.2 AutoScroll.default _ _ rfl

theorem increment_count_below (a : AutoReload) (T : Nat)
    (hafter : a.reload_after = some T) (hcnt : a.reload_count + 1 < T) (h32 : T < u32Mod) :
    a.increment_count =
      (false, { reload_after := some T, reload_count := a.reload_count + 1 }) := by
  have hmod : (a.reload_count + 1) % u32Mod = a.reload_count + 1 :=
    Nat.mod_eq_of_lt (by omega)
  unfold AutoReload.increment_count
  dsimp only
  rw [hafter]
  dsimp only
  rw [hmod, if_neg (by omega)]

theorem increment_count_at (a : AutoReload) (T : Nat)
    (hafter : a.reload_after = some T) (hcnt : a.reload_count + 1 = T) (h32 : T < u32Mod) :
    a.increment_count = (true, { reload_after := some T, reload_count := 0 }) := by
  have hmod : (a.reload_count + 1) % u32Mod = a.reload_count + 1 :=
    Nat.mod_eq_of_lt (by omega)
  unfold AutoReload.increment_count
  dsimp only
  rw [hafter]
  dsimp only
  rw [hmod, if_pos (by omega)]

theorem add_modify_row_below_threshold (s : TableState Row F)
    (m : List (Int × SelectableRow Row F) → List (Int × SelectableRow Row F) × Option Row)
    (T : Nat) (hm : SizePreservingMut m) (hafter : s.auto_reload.reload_after = some T)
    (hcnt : s.auto_reload.reload_count + 1 < T) (h32 : T < u32Mod) :
    (add_modify_row s m).formatted_rows = s.formatted_rows ∧
    (add_modify_row s m).rows.length = s.rows.length ∧
    (add_modify_row s m).auto_reload =
      { reload_after := some T, reload_count := s.auto_reload.reload_count + 1 } := by
  have h2 := (hm s.rows).1
  have hlen := (hm s.rows).2
  unfold add_modify_row
  dsimp only
  rw [h2]
  dsimp only
  rw [increment_count_below s.auto_reload T hafter hcnt h32]
  dsimp only
  exact ⟨rfl, hlen, rfl⟩

theorem add_modify_row_at_threshold (s : TableState Row F)
    (m : List (Int × SelectableRow Row F) → List (Int × SelectableRow Row F) × Option Row)
    (T : Nat) (hm : SizePreservingMut m) (hafter : s.auto_reload.reload_after = some T)
    (hcnt : s.auto_reload.reload_count + 1 = T) (h32 : T < u32Mod) :
    (add_modify_row s m).formatted_rows = [] ∧
    (add_modify_row s m).rows.length = s.rows.length ∧
    (add_modify_row s m).auto_reload = { reload_after := some T, reload_count := 0 } := by
  have h2 := (hm s.rows).1
  have hlen := (hm s.rows).2
  unfold add_modify_row
  dsimp only
  rw [h2]
  dsimp only
  rw [increment_count_at s.auto_reload T hafter hcnt h32]
  dsimp only
  unfold recreate_rows
  exact ⟨rfl, hlen, rfl⟩

theorem applyMuts_below_threshold (T : Nat) :
    ∀ (ms : List _) (s : TableState Row F), (∀ m ∈ ms, SizePreservingMut m) →
    s.auto_reload.reload_after = some T → T < u32Mod →
    s.auto_reload.reload_count + ms.length < T →
    (applyMuts s ms).formatted_rows = s.formatted_rows ∧
    (applyMuts s ms).rows.length = s.rows.length ∧
    (applyMuts s ms).auto_reload =
      { reload_after := some T, reload_count := s.auto_reload.reload_count + ms.length } := by
  intro ms
  induction ms with
  | nil =>
    intro s _ hafter _ _
    refine ⟨rfl, rfl, ?_⟩
    rw [← hafter]
    rfl
  | cons m rest ih =>
    intro s hms hafter h32 hlt
    rw [List.length_cons] at hlt
    have hstep := add_modify_row_below_threshold s m T (hms m (List.mem_cons_self m rest))
      hafter (by omega) h32
    have hrec := ih (add_modify_row s m)
      (fun x hx => hms x (List.mem_cons_of_mem m hx))
      (by rw [hstep.2.2]) h32
      (by rw [hstep.2.2]; dsimp only; omega)
    have heq : applyMuts s (m :: rest) = applyMuts (add_modify_row s m) rest := rfl
    refine ⟨?_, ?_, ?_⟩
    · rw [heq, hrec.1, hstep.1]
    · rw [heq, hrec.2.1, hstep.2.1]
    · rw [heq, hrec.2.2, hstep.2.2]
      dsimp only
      rw [List.length_cons]
      congr 1
      omega

/-- C3 (amended): with an auto-reload threshold `T ≥ 1` configured, counter at
zero, a fresh snapshot and a non-empty store, a sequence of `T - 1` in-place
mutation calls (mutators that return no new row and preserve the store size)
leaves the snapshot fresh with the counter at `T - 1`; the `T`-th such call
makes the snapshot stale on the next access and resets the counter to zero. -/
theorem auto_reload_threshold_staleness (T : Nat) (s0 : TableState Row F)
    (ms : List _) (m : List (Int × SelectableRow Row F) →
      List (Int × SelectableRow Row F) × Option Row)
    (hT : 1 ≤ T) (h32 : T < u32Mod)
    (hms : ∀ x ∈ ms, SizePreservingMut x) (hm : SizePreservingMut m)
    (hlen : ms.length = T - 1)
    (hcfg : s0.auto_reload = { reload_after := some T, reload_count := 0 })
    (hfresh : s0.formatted_rows.length = s0.rows.length)
    (hne : s0.rows ≠ []) :
    ¬ snapshotStale (applyMuts s0 ms) ∧
    (applyMuts s0 ms).auto_reload.reload_count = T - 1 ∧
    snapshotStale (add_modify_row (applyMuts s0 ms) m) ∧
    (add_modify_row (applyMuts s0 ms) m).auto_reload.reload_count = 0 := by
  have hafter : s0.auto_reload.reload_after = some T := by rw [hcfg]
  have hcnt0 : s0.auto_reload.reload_count = 0 := by rw [hcfg]
  have hbelow := applyMuts_below_threshold T ms s0 hms hafter h32 (by omega)
  have hthresh := add_modify_row_at_threshold (applyMuts s0 ms) m T hm
    (by rw [hbelow.2.2]) (by rw [hbelow.2.2]; dsimp only; omega) h32
  refine ⟨?_, ?_, ?_, ?_⟩
  · unfold snapshotStale
    rw [hbelow.1, hbelow.2.1]
    exact fun h => h hfresh
  · rw [hbelow.2.2]; dsimp only; omega
  · unfold snapshotStale
    rw [hthresh.1, hthresh.2.1, hbelow.2.1]
    intro h
    exact hne (List.length_eq_zero.mp (by simpa using h.symm))
  · rw [hthresh.2.2]

/-- Witness for the amended C3 at a concrete table: threshold 2, one concrete
row, one in-place mutation call followed by the threshold-reaching call. -/
theorem auto_reload_threshold_staleness_witness :
    ¬ snapshotStale (applyMuts auto_reload_witness_state [fun st => (st, none)]) ∧
    (applyMuts auto_reload_witness_state [fun st => (st, none)]).auto_reload.reload_count = 2 - 1 ∧
    snapshotStale (add_modify_row (applyMuts auto_reload_witness_state [fun st => (st, none)])
      (fun st => (st, none))) ∧
    (add_modify_row (applyMuts auto_reload_witness_state [fun st => (st, none)])
      (fun st => (st, none))).auto_reload.reload_count = 0 := by
  exact auto_reload_threshold_staleness 2 auto_reload_witness_state _ _
    (by omega) (by unfold u32Mod; omega)
    (by intro x hx; rw [List.mem_singleton] at hx; subst hx; exact fun st => ⟨rfl, rfl⟩)
    (fun st => ⟨rfl, rfl⟩) rfl rfl rfl (by decide)

/-- C3 counterexample: the claim as stated fails for insertion calls. With
threshold `T = 2`, a single call to `add_modify_row` that inserts a row (only
`T - 1 = 1` calls) already leaves the snapshot stale on the next access,
because any insertion makes the snapshot length differ from the store. -/
theorem auto_reload_claim_counterexample :
    (1 = 2 - 1) ∧
    ¬ snapshotStale (set_auto_reload ((newTable [0, 1] : TableState Nat Nat)) (some 2)) ∧
    snapshotStale (add_modify_row (set_auto_reload ((newTable [0, 1] : TableState Nat Nat)) (some 2))
      (fun st => (st, some 7))) := by
  refine ⟨rfl, ?_, ?_⟩ <;> decide

/-- C4: after any sequence of insertions/mutations through `add_modify_row`
followed by a call to the snapshot accessor `rows()`, the number of rows in
the store equals the length of the display snapshot (freshness invariant). -/
theorem rows_accessor_freshness (ord : F → Row → Row → Ordering)
    (s : TableState Row F)
    (ms : List (List (Int × SelectableRow Row F) →
      List (Int × SelectableRow Row F) × Option Row)) :
    ((rowsAccessor ord (applyMuts s ms)).2).rows.length =
      ((rowsAccessor ord (applyMuts s ms)).2).formatted_rows.length := by
  set s1 := applyMuts s ms
  unfold rowsAccessor rowsAccessorWith
  dsimp only
  split
  · unfold sortRowsWith
    dsimp only
    rw [(List.perm_insertionSort _ _).length_eq]
    unfold storeValues
    rw [List.length_map]
  · omega

theorem map_clear_modify (L : List (SelectableRow Row F)) (l : List Int) (j : Nat)
    (a : SelectableRow Row F) (i : Int)
    (hnd : (L.map (fun r => r.id)).Nodup) (hget : L.get? j = some a) (hid : a.id = i) :
    (modifyIdx L j (fun r => { r with selected_columns := [] })).map
      (fun r => if r.id ∈ l then { r with selected_columns := [] } else r) =
    L.map (fun r => if r.id ∈ i :: l then { r with selected_columns := [] } else r) := by
  apply List.ext
  intro k
  rw [List.get?_map, List.get?_map]
  by_cases hk : k = j
  · subst hk
    rw [get?_modifyIdx_self _ _ _ _ hget, hget]
    simp only [Option.map_some']
    congr 1
    have hmem2 : a.id ∈ i :: l := by rw [hid]; exact List.mem_cons_self i l
    by_cases hcl : ({ a with selected_columns := [] } : SelectableRow Row F).id ∈ l
    · rw [if_pos hcl, if_pos hmem2]
    · rw [if_neg hcl, if_pos hmem2]
  · rw [get?_modifyIdx_ne _ _ _ _ hk]
    cases hgk : L.get? k with
    | none => rfl
    | some b =>
      simp only [Option.map_some']
      congr 1
      have hbne : b.id ≠ i := by
        subst hid
        exact nodup_map_get_ne _ _ hnd hgk hget hk
      by_cases hbl : b.id ∈ l
      · rw [if_pos hbl, if_pos (List.mem_cons_of_mem i hbl)]
      · rw [if_neg hbl, if_neg (by
          intro hcontra
          rcases List.mem_cons.mp hcontra with h | h
          · exact hbne h
          · exact hbl h)]

theorem unselectLoop_spec :
    ∀ (l : List Int) (s : TableState Row F),
    s.indexed_ids = idxPairs (fun r => r.id) s.formatted_rows →
    (s.formatted_rows.map (fun r => r.id)).Nodup →
    (∀ i ∈ l, i ∈ s.formatted_rows.map (fun r => r.id)) →
    unselectLoop s l = some { s with
      formatted_rows := s.formatted_rows.map (fun r =>
        if r.id ∈ l then { r with selected_columns := [] } else r) } := by
  intro l
  induction l with
  | nil =>
    intro s _ _ _
    have hmap : s.formatted_rows.map (fun r =>
        if r.id ∈ ([] : List Int) then { r with selected_columns := [] } else r) =
        s.formatted_rows := by
      simp
    rw [unselectLoop, hmap]
  | cons i l ih =>
    intro s hidx hnd hsub
    obtain ⟨a, ha, haid⟩ := List.mem_map.mp (hsub i (List.mem_cons_self i l))
    obtain ⟨j, hj⟩ := List.get?_of_mem ha
    have hlook : alookup i s.indexed_ids = some j := by
      rw [hidx]
      have h2 := alookup_idxPairsFrom_of_get (fun r => r.id) s.formatted_rows 0 j a hnd hj
      simp only [haid] at h2
      simpa [idxPairs] using h2
    have hstep : unselectLoop s (i :: l) =
        unselectLoop { s with
          formatted_rows := modifyIdx s.formatted_rows j
            (fun r => { r with selected_columns := [] }) } l := by
      rw [unselectLoop]
      rw [hlook]
      dsimp only
      rw [hj]
    rw [hstep]
    set s1 := { s with
      formatted_rows := modifyIdx s.formatted_rows j
        (fun r => { r with selected_columns := [] }) } with hs1
    have hmapid : s1.formatted_rows.map (fun r => r.id) =
        s.formatted_rows.map (fun r => r.id) := by
      rw [hs1]
      dsimp only
      exact map_modifyIdx (fun r => r.id)
        (fun r => { r with selected_columns := [] }) (fun r => rfl) s.formatted_rows j
    have hrec := ih s1
      (by rw [hs1]
          dsimp only
          rw [hidx]
          unfold idxPairs
          exact (idxPairsFrom_map_eq _ _ _ 0 hmapid).symm)
      (by rw [hmapid]; exact hnd)
      (by intro x hx
          rw [hmapid]
          exact hsub x (List.mem_cons_of_mem i hx))
    rw [hrec]
    have hfin : s1.formatted_rows.map (fun r =>
        if r.id ∈ l then { r with selected_columns := [] } else r) =
        s.formatted_rows.map (fun r =>
          if r.id ∈ i :: l then { r with selected_columns := [] } else r) :=
      map_clear_modify s.formatted_rows l j a i hnd hj haid
    rw [hs1]
    dsimp only
    rw [hfin]

theorem unselect_all_spec (s : TableState Row F)
    (hidx : s.indexed_ids = idxPairs (fun r => r.id) s.formatted_rows)
    (hnd : (s.formatted_rows.map (fun r => r.id)).Nodup)
    (hsub : ∀ i ∈ s.active_rows, i ∈ s.formatted_rows.map (fun r => r.id)) :
    unselect_all s = some { s with
      formatted_rows := s.formatted_rows.map (fun r =>
        if r.id ∈ s.active_rows then { r with selected_columns := [] } else r)
      active_columns := []
      last_active_row := none
      last_active_column := none
      active_rows := [] } := by
  unfold unselect_all
  rw [unselectLoop_spec s.active_rows s hidx hnd hsub]

theorem unselect_all_clears (s : TableState Row F) (s1 : TableState Row F)
    (hsel : SelInv s)
    (h1 : s1 = { s with
      formatted_rows := s.formatted_rows.map (fun r =>
        if r.id ∈ s.active_rows then { r with selected_columns := [] } else r)
      active_columns := []
      last_active_row := none
      last_active_column := none
      active_rows := [] }) :
    ∀ r ∈ s1.formatted_rows, r.selected_columns = [] := by
  subst h1
  intro r hr
  dsimp only at hr
  obtain ⟨a, ha, rfl⟩ := List.mem_map.mp hr
  by_cases hmem : a.id ∈ s.active_rows
  · rw [if_pos hmem]
  · rw [if_neg hmem]
    by_contra hne
    exact hmem (hsel a ha hne)

theorem change_sorted_by_spec (s : TableState Row F) (col : F)
    (hidx : s.indexed_ids = idxPairs (fun r => r.id) s.formatted_rows)
    (hnd : (s.formatted_rows.map (fun r => r.id)).Nodup)
    (hsub : ∀ i ∈ s.active_rows, i ∈ s.formatted_rows.map (fun r => r.id)) :
    change_sorted_by s col = some { s with
      formatted_rows := s.formatted_rows.map (fun r =>
        if r.id ∈ s.active_rows then { r with selected_columns := [] } else r)
      active_columns := []
      last_active_row := none
      last_active_column := none
      active_rows := []
      sorted_by := col
      sort_order := SortOrder.Ascending } := by
  unfold change_sorted_by
  rw [unselect_all_spec s hidx hnd hsub]

theorem change_sort_order_spec (s : TableState Row F)
    (hidx : s.indexed_ids = idxPairs (fun r => r.id) s.formatted_rows)
    (hnd : (s.formatted_rows.map (fun r => r.id)).Nodup)
    (hsub : ∀ i ∈ s.active_rows, i ∈ s.formatted_rows.map (fun r => r.id)) :
    change_sort_order s = some { s with
      formatted_rows := s.formatted_rows.map (fun r =>
        if r.id ∈ s.active_rows then { r with selected_columns := [] } else r)
      active_columns := []
      last_active_row := none
      last_active_column := none
      active_rows := []
      sort_order := (match s.sort_order with
        | SortOrder.Ascending => SortOrder.Descending
        | SortOrder.Descending => SortOrder.Ascending) } := by
  unfold change_sort_order
  rw [unselect_all_spec s hidx hnd hsub]

/-- C6: `change_sorted_by(col)` sets the sort spec to `(col, Ascending)` and
clears all selection; `change_sort_order` flips Ascending/Descending in place
(leaving the sort column unchanged) and likewise clears all selection. -/
theorem sort_controls_set_spec_and_clear_selection (s : TableState Row F) (col : F)
    (hidx : s.indexed_ids = idxPairs (fun r => r.id) s.formatted_rows)
    (hnd : (s.formatted_rows.map (fun r => r.id)).Nodup)
    (hsub : ∀ i ∈ s.active_rows, i ∈ s.formatted_rows.map (fun r => r.id))
    (hsel : SelInv s) :
    (∃ s1, change_sorted_by s col = some s1 ∧
      s1.sorted_by = col ∧ s1.sort_order = SortOrder.Ascending ∧
      (∀ r ∈ s1.formatted_rows, r.selected_columns = []) ∧
      s1.active_rows = [] ∧ s1.active_columns = [] ∧
      s1.last_active_row = none ∧ s1.last_active_column = none) ∧
    (∃ s2, change_sort_order s = some s2 ∧
      s2.sorted_by = s.sorted_by ∧
      s2.sort_order = (match s.sort_order with
        | SortOrder.Ascending => SortOrder.Descending
        | SortOrder.Descending => SortOrder.Ascending) ∧
      (∀ r ∈ s2.formatted_rows, r.selected_columns = []) ∧
      s2.active_rows = [] ∧ s2.active_columns = [] ∧
      s2.last_active_row = none ∧ s2.last_active_column = none) := by
  have hclears := unselect_all_clears s _ hsel rfl
  constructor
  · exact ⟨_, change_sorted_by_spec s col hidx hnd hsub, rfl, rfl, hclears, rfl, rfl, rfl, rfl⟩
  · exact ⟨_, change_sort_order_spec s hidx hnd hsub, rfl, rfl, hclears, rfl, rfl, rfl, rfl⟩

/-- Witness for C6 at a concrete table. -/
theorem sort_controls_clear_selection_witness :
    (∃ s1, change_sorted_by sel_witness_state 1 = some s1 ∧
      s1.sorted_by = 1 ∧ s1.sort_order = SortOrder.Ascending ∧
      (∀ r ∈ s1.formatted_rows, r.selected_columns = []) ∧
      s1.active_rows = [] ∧ s1.active_columns = [] ∧
      s1.last_active_row = none ∧ s1.last_active_column = none) ∧
    (∃ s2, change_sort_order sel_witness_state = some s2 ∧
      s2.sorted_by = sel_witness_state.sorted_by ∧
      s2.sort_order = (match sel_witness_state.sort_order with
        | SortOrder.Ascending => SortOrder.Descending
        | SortOrder.Descending => SortOrder.Ascending) ∧
      (∀ r ∈ s2.formatted_rows, r.selected_columns = []) ∧
      s2.active_rows = [] ∧ s2.active_columns = [] ∧
      s2.last_active_row = none ∧ s2.last_active_column = none) :=
  sort_controls_set_spec_and_clear_selection sel_witness_state 1
    (by decide) (by decide) (by decide) (by decide)

/-- C7: `select_all` followed by `unselect_all` leaves the selection state
empty: every snapshot row's selected-column set is empty, the active-row and
active-column sets are empty, and the last-touched trackers are cleared. -/
theorem select_all_then_unselect_all_empty (s : TableState Row F)
    (hidx : s.indexed_ids = idxPairs (fun r => r.id) s.formatted_rows)
    (hnd : (s.formatted_rows.map (fun r => r.id)).Nodup)
    (hsub : ∀ i ∈ s.active_rows, i ∈ s.formatted_rows.map (fun r => r.id)) :
    ∃ s2, unselect_all (select_all s) = some s2 ∧
      (∀ r ∈ s2.formatted_rows, r.selected_columns = []) ∧
      s2.active_rows = [] ∧ s2.active_columns = [] ∧
      s2.last_active_row = none ∧ s2.last_active_column = none := by
  set s1 := select_all s with hs1
  have hmapid : s1.formatted_rows.map (fun r => r.id) =
      s.formatted_rows.map (fun r => r.id) := by
    rw [hs1]
    unfold select_all
    dsimp only
    rw [List.map_map]
    rfl
  have hidx1 : s1.indexed_ids = idxPairs (fun r => r.id) s1.formatted_rows := by
    have : s1.indexed_ids = s.indexed_ids := rfl
    rw [this, hidx]
    unfold idxPairs
    exact (idxPairsFrom_map_eq _ _ _ 0 hmapid).symm
  have hnd1 : (s1.formatted_rows.map (fun r => r.id)).Nodup := by rw [hmapid]; exact hnd
  have hsub1 : ∀ i ∈ s1.active_rows, i ∈ s1.formatted_rows.map (fun r => r.id) := by
    intro i hi
    have hact : s1.active_rows = hsExtend s.active_rows
        (s.formatted_rows.map (fun r => r.id)) := rfl
    rw [hact] at hi
    rw [hmapid]
    rcases (hsExtend_mem _ _).mp hi with h | h
    · exact hsub i h
    · exact h
  have hun := unselect_all_spec s1 hidx1 hnd1 hsub1
  refine ⟨_, hun, ?_, rfl, rfl, rfl, rfl⟩
  intro r hr
  dsimp only at hr
  obtain ⟨a, ha, rfl⟩ := List.mem_map.mp hr
  have hmem : a.id ∈ s1.active_rows := by
    have hact : s1.active_rows = hsExtend s.active_rows
        (s.formatted_rows.map (fun r => r.id)) := rfl
    rw [hact]
    refine (hsExtend_mem _ _).mpr (Or.inr ?_)
    rw [← hmapid]
    exact List.mem_map_of_mem _ ha
  rw [if_pos hmem]

/-- Witness for C7 at a concrete table. -/
theorem select_all_then_unselect_all_empty_witness :
    ∃ s2, unselect_all (select_all sel_witness_state) = some s2 ∧
      (∀ r ∈ s2.formatted_rows, r.selected_columns = []) ∧
      s2.active_rows = [] ∧ s2.active_columns = [] ∧
      s2.last_active_row = none ∧ s2.last_active_column = none :=
  select_all_then_unselect_all_empty sel_witness_state (by decide) (by decide) (by decide)

theorem swap_eq_gt_iff (o : Ordering) : o.swap = Ordering.gt ↔ o = Ordering.lt := by
  cases o <;> simp [Ordering.swap]

theorem sortLe_desc_iff (ord : F → Row → Row → Ordering) (col : F)
    (hcons : ∀ a b : Row, ord col a b = (ord col b a).swap)
    (a b : SelectableRow Row F) :
    sortLe ord col SortOrder.Descending a b ↔ sortLe ord col SortOrder.Ascending b a := by
  unfold sortLe
  rw [hcons a.row_data b.row_data, Ordering.swap_swap]

theorem sortLe_total (ord : F → Row → Row → Ordering) (col : F) (so : SortOrder)
    (hcons : ∀ a b : Row, ord col a b = (ord col b a).swap) :
    ∀ a b : SelectableRow Row F, sortLe ord col so a b ∨ sortLe ord col so b a := by
  have hbase : ∀ a b : SelectableRow Row F,
      sortLe ord col SortOrder.Ascending a b ∨ sortLe ord col SortOrder.Ascending b a := by
    intro a b
    by_cases h : ord col a.row_data b.row_data = Ordering.gt
    · right
      show ord col b.row_data a.row_data ≠ Ordering.gt
      intro hcon
      rw [hcons b.row_data a.row_data, swap_eq_gt_iff] at hcon
      rw [hcon] at h
      exact Ordering.noConfusion h
    · exact Or.inl h
  intro a b
  cases so with
  | Ascending => exact hbase a b
  | Descending =>
    rcases hbase b a with h | h
    · exact Or.inl ((sortLe_desc_iff ord col hcons a b).mpr h)
    · exact Or.inr ((sortLe_desc_iff ord col hcons b a).mpr h)

theorem sortLe_trans (ord : F → Row → Row → Ordering) (col : F) (so : SortOrder)
    (hcons : ∀ a b : Row, ord col a b = (ord col b a).swap)
    (htrans : ∀ a b c : Row, ord col a b ≠ Ordering.gt → ord col b c ≠ Ordering.gt →
      ord col a c ≠ Ordering.gt) :
    ∀ a b c : SelectableRow Row F, sortLe ord col so a b → sortLe ord col so b c →
      sortLe ord col so a c := by
  intro a b c hab hbc
  cases so with
  | Ascending => exact htrans _ _ _ hab hbc
  | Descending =>
    rw [sortLe_desc_iff ord col hcons] at hab hbc ⊢
    exact htrans _ _ _ hbc hab

theorem sortLe_antisymm_on (ord : F → Row → Row → Ordering) (col : F) (so : SortOrder)
    (hcons : ∀ a b : Row, ord col a b = (ord col b a).swap)
    (L : List (SelectableRow Row F))
    (hnoties : ∀ a ∈ L, ∀ b ∈ L, ord col a.row_data b.row_data = Ordering.eq → a = b) :
    ∀ a ∈ L, ∀ b ∈ L, sortLe ord col so a b → sortLe ord col so b a → a = b := by
  have hbase : ∀ a ∈ L, ∀ b ∈ L, sortLe ord col SortOrder.Ascending a b →
      sortLe ord col SortOrder.Ascending b a → a = b := by
    intro a ha b hb hab hba
    have hab2 : ord col a.row_data b.row_data ≠ Ordering.gt := hab
    have hba2 : ord col b.row_data a.row_data ≠ Ordering.gt := hba
    rcases hcmp : ord col a.row_data b.row_data with _ | _ | _
    · exfalso
      apply hba2
      rw [hcons b.row_data a.row_data, hcmp]
      rfl
    · exact hnoties a ha b hb hcmp
    · exact absurd hcmp hab2
  intro a ha b hb hab hba
  cases so with
  | Ascending => exact hbase a ha b hb hab hba
  | Descending =>
    exact hbase a ha b hb ((sortLe_desc_iff ord col hcons b a).mp hba)
      ((sortLe_desc_iff ord col hcons a b).mp hab)

theorem eq_of_perm_of_sorted_anti {α : Type} {le : α → α → Prop} :
    ∀ {l1 l2 : List α}, l1.Perm l2 → l1.Sorted le → l2.Sorted le →
    (∀ a ∈ l1, ∀ b ∈ l1, le a b → le b a → a = b) → l1 = l2 := by
  intro l1
  induction l1 with
  | nil =>
    intro l2 hp _ _ _
    exact hp.nil_eq
  | cons a t ih =>
    intro l2 hp hs1 hs2 hanti
    cases l2 with
    | nil => exact absurd hp.eq_nil (by simp)
    | cons b t2 =>
      rw [List.sorted_cons] at hs1 hs2
      have hab : a = b := by
        have hbmem : b ∈ a :: t := hp.symm.subset (List.mem_cons_self b t2)
        have hamem : a ∈ b :: t2 := hp.subset (List.mem_cons_self a t)
        rcases List.mem_cons.mp hbmem with h | h
        · exact h.symm
        rcases List.mem_cons.mp hamem with h2 | h2
        · exact h2
        have hle1 : le a b := hs1.1 b h
        have hle2 : le b a := hs2.1 a h2
        exact hanti a (List.mem_cons_self a t) b hbmem hle1 hle2
      subst hab
      have hperm2 : t.Perm t2 := hp.cons_inv
      have htail := ih hperm2 hs1.2 hs2.2
        (fun x hx y hy => hanti x (List.mem_cons_of_mem a hx) y (List.mem_cons_of_mem a hy))
      rw [htail]

theorem change_sort_order_no_active (s : TableState Row F) (h : s.active_rows = []) :
    change_sort_order s = some { s with
      active_columns := []
      last_active_row := none
      last_active_column := none
      active_rows := []
      sort_order := (match s.sort_order with
        | SortOrder.Ascending => SortOrder.Descending
        | SortOrder.Descending => SortOrder.Ascending) } := by
  unfold change_sort_order unselect_all
  rw [h]
  rfl

theorem rowsAccessorWith_stale (ord : F → Row → Row → Ordering) (s : TableState Row F)
    (vals : List (SelectableRow Row F)) (h : s.formatted_rows.length ≠ s.rows.length) :
    (rowsAccessorWith ord s vals).2 = sortRowsWith ord s vals := by
  unfold rowsAccessorWith
  dsimp only
  rw [if_pos h]

theorem rowsAccessorWith_fresh (ord : F → Row → Row → Ordering) (s : TableState Row F)
    (vals : List (SelectableRow Row F)) (h : s.formatted_rows.length = s.rows.length) :
    (rowsAccessorWith ord s vals).2 = s := by
  unfold rowsAccessorWith
  dsimp only
  rw [if_neg (by omega)]

theorem recreate_rows_rows (s : TableState Row F) : (recreate_rows s).rows = s.rows := rfl

theorem recreate_rows_formatted (s : TableState Row F) :
    (recreate_rows s).formatted_rows = [] := rfl

theorem recreate_rows_active_rows (s : TableState Row F) :
    (recreate_rows s).active_rows = [] := rfl

theorem recreate_rows_sorted_by (s : TableState Row F) :
    (recreate_rows s).sorted_by = s.sorted_by := rfl

theorem recreate_rows_sort_order (s : TableState Row F) :
    (recreate_rows s).sort_order = s.sort_order := rfl

theorem sortRowsWith_formatted (ord : F → Row → Row → Ordering) (s : TableState Row F)
    (vals : List (SelectableRow Row F)) :
    (sortRowsWith ord s vals).formatted_rows =
      List.insertionSort (sortLe ord s.sorted_by s.sort_order) vals := rfl

theorem sortRowsWith_indexed (ord : F → Row → Row → Ordering) (s : TableState Row F)
    (vals : List (SelectableRow Row F)) :
    (sortRowsWith ord s vals).indexed_ids =
      idxPairs (fun r => r.id) ((sortRowsWith ord s vals).formatted_rows) := rfl

theorem sortRowsWith_rows (ord : F → Row → Row → Ordering) (s : TableState Row F)
    (vals : List (SelectableRow Row F)) : (sortRowsWith ord s vals).rows = s.rows := rfl

theorem sortRowsWith_active_rows (ord : F → Row → Row → Ordering) (s : TableState Row F)
    (vals : List (SelectableRow Row F)) :
    (sortRowsWith ord s vals).active_rows = s.active_rows := rfl

theorem sortRowsWith_sorted_by (ord : F → Row → Row → Ordering) (s : TableState Row F)
    (vals : List (SelectableRow Row F)) :
    (sortRowsWith ord s vals).sorted_by = s.sorted_by := rfl

theorem sortRowsWith_sort_order (ord : F → Row → Row → Ordering) (s : TableState Row F)
    (vals : List (SelectableRow Row F)) :
    (sortRowsWith ord s vals).sort_order = s.sort_order := rfl

/-- C5: with a user comparator that is consistent (`cmp a b = (cmp b a).swap`),
transitive, and without ties on the stored rows (a strict total order there),
toggling the sort order twice in a row — each toggle followed by the snapshot
rebuild it forces via `recreate_rows` and the `rows()` accessor — yields a
display snapshot equal to the original one, for any iteration orders of the
store values fed to the two rebuild sorts. -/
theorem sort_toggle_twice_restores_order
    (ord : F → Row → Row → Ordering) (s : TableState Row F)
    (vals1 vals2 : List (SelectableRow Row F))
    (hidx : s.indexed_ids = idxPairs (fun r => r.id) s.formatted_rows)
    (hnd : (s.formatted_rows.map (fun r => r.id)).Nodup)
    (hsub : ∀ i ∈ s.active_rows, i ∈ s.formatted_rows.map (fun r => r.id))
    (hsorted : s.formatted_rows.Sorted (sortLe ord s.sorted_by s.sort_order))
    (hperm : s.formatted_rows.Perm (storeValues s))
    (hv1 : vals1.Perm (storeValues s)) (hv2 : vals2.Perm (storeValues s))
    (hcons : ∀ a b : Row, ord s.sorted_by a b = (ord s.sorted_by b a).swap)
    (htrans : ∀ a b c : Row, ord s.sorted_by a b ≠ Ordering.gt →
      ord s.sorted_by b c ≠ Ordering.gt → ord s.sorted_by a c ≠ Ordering.gt)
    (hnoties : ∀ a ∈ storeValues s, ∀ b ∈ storeValues s,
      ord s.sorted_by a.row_data b.row_data = Ordering.eq → a = b) :
    ∃ s1 s2, change_sort_order s = some s1 ∧
      change_sort_order ((rowsAccessorWith ord (recreate_rows s1) vals1).2) = some s2 ∧
      ((rowsAccessorWith ord (recreate_rows s2) vals2).2).formatted_rows =
        s.formatted_rows := by
  obtain ⟨S1, h1, hS1rows, hS1act, hS1sb, hS1so⟩ :
      ∃ x, change_sort_order s = some x ∧ x.rows = s.rows ∧ x.active_rows = [] ∧
        x.sorted_by = s.sorted_by ∧ x.sort_order = (match s.sort_order with
          | SortOrder.Ascending => SortOrder.Descending
          | SortOrder.Descending => SortOrder.Ascending) :=
    ⟨_, change_sort_order_spec s hidx hnd hsub, rfl, rfl, rfl, rfl⟩
  by_cases hzero : s.rows.length = 0
  · -- empty store: the snapshot is empty throughout and never rebuilt
    have hsv : storeValues s = [] := by
      unfold storeValues
      rw [List.length_eq_zero.mp hzero]
      rfl
    have hf0 : s.formatted_rows = [] := by
      rw [hsv] at hperm
      exact hperm.eq_nil
    have hfresh1 : (recreate_rows S1).formatted_rows.length =
        (recreate_rows S1).rows.length := by
      rw [recreate_rows_formatted, recreate_rows_rows, hS1rows]
      simpa using hzero.symm
    have hacc1 : (rowsAccessorWith ord (recreate_rows S1) vals1).2 = recreate_rows S1 :=
      rowsAccessorWith_fresh ord _ vals1 hfresh1
    obtain ⟨S2, h2, hS2rows, hS2fmt⟩ :
        ∃ x, change_sort_order (recreate_rows S1) = some x ∧
          x.rows = (recreate_rows S1).rows ∧
          x.formatted_rows = (recreate_rows S1).formatted_rows :=
      ⟨_, change_sort_order_no_active (recreate_rows S1) (recreate_rows_active_rows S1),
        rfl, rfl⟩
    have hfresh2 : (recreate_rows S2).formatted_rows.length =
        (recreate_rows S2).rows.length := by
      rw [recreate_rows_formatted, recreate_rows_rows, hS2rows, recreate_rows_rows, hS1rows]
      simpa using hzero.symm
    have hacc2 : (rowsAccessorWith ord (recreate_rows S2) vals2).2 = recreate_rows S2 :=
      rowsAccessorWith_fresh ord _ vals2 hfresh2
    refine ⟨S1, S2, h1, ?_, ?_⟩
    · rw [hacc1]
      exact h2
    · rw [hacc2, recreate_rows_formatted, hf0]
  · -- non-empty store: both toggles force a rebuild
    have hstale1 : (recreate_rows S1).formatted_rows.length ≠
        (recreate_rows S1).rows.length := by
      rw [recreate_rows_formatted, recreate_rows_rows, hS1rows]
      simpa using fun h => hzero h.symm
    have hacc1 : (rowsAccessorWith ord (recreate_rows S1) vals1).2 =
        sortRowsWith ord (recreate_rows S1) vals1 :=
      rowsAccessorWith_stale ord _ vals1 hstale1
    set R1 := sortRowsWith ord (recreate_rows S1) vals1 with hR1def
    have hR1act : R1.active_rows = [] := by
      rw [hR1def, sortRowsWith_active_rows, recreate_rows_active_rows]
    have hR1rows : R1.rows = s.rows := by
      rw [hR1def, sortRowsWith_rows, recreate_rows_rows, hS1rows]
    have hR1sb : R1.sorted_by = s.sorted_by := by
      rw [hR1def, sortRowsWith_sorted_by, recreate_rows_sorted_by, hS1sb]
    have hR1so : R1.sort_order = (match s.sort_order with
        | SortOrder.Ascending => SortOrder.Descending
        | SortOrder.Descending => SortOrder.Ascending) := by
      rw [hR1def, sortRowsWith_sort_order, recreate_rows_sort_order, hS1so]
    obtain ⟨S2, h2, hS2rows, hS2sb, hS2so⟩ :
        ∃ x, change_sort_order R1 = some x ∧ x.rows = R1.rows ∧
          x.sorted_by = R1.sorted_by ∧ x.sort_order = (match R1.sort_order with
            | SortOrder.Ascending => SortOrder.Descending
            | SortOrder.Descending => SortOrder.Ascending) :=
      ⟨_, change_sort_order_no_active R1 hR1act, rfl, rfl, rfl⟩
    have hstale2 : (recreate_rows S2).formatted_rows.length ≠
        (recreate_rows S2).rows.length := by
      rw [recreate_rows_formatted, recreate_rows_rows, hS2rows, hR1rows]
      simpa using fun h => hzero h.symm
    have hacc2 : (rowsAccessorWith ord (recreate_rows S2) vals2).2 =
        sortRowsWith ord (recreate_rows S2) vals2 :=
      rowsAccessorWith_stale ord _ vals2 hstale2
    have hso : (recreate_rows S2).sort_order = s.sort_order := by
      rw [recreate_rows_sort_order, hS2so, hR1so]
      cases s.sort_order <;> rfl
    have hsb : (recreate_rows S2).sorted_by = s.sorted_by := by
      rw [recreate_rows_sorted_by, hS2sb, hR1sb]
    refine ⟨S1, S2, h1, ?_, ?_⟩
    · rw [hacc1]
      exact h2
    · rw [hacc2, sortRowsWith_formatted, hso, hsb]
      set le := sortLe ord s.sorted_by s.sort_order with hle
      haveI : IsTotal (SelectableRow Row F) le := ⟨sortLe_total ord _ _ hcons⟩
      haveI : IsTrans (SelectableRow Row F) le :=
        ⟨sortLe_trans ord _ _ hcons htrans⟩
      have hsorted_fin : (List.insertionSort le vals2).Sorted le :=
        List.sorted_insertionSort le vals2
      have hperm_fin : (List.insertionSort le vals2).Perm s.formatted_rows :=
        (List.perm_insertionSort le vals2).trans (hv2.trans hperm.symm)
      have hanti : ∀ a ∈ List.insertionSort le vals2, ∀ b ∈ List.insertionSort le vals2,
          le a b → le b a → a = b := by
        intro a ha b hb hab hba
        have hmema : a ∈ storeValues s :=
          hv2.subset ((List.perm_insertionSort le vals2).subset ha)
        have hmemb : b ∈ storeValues s :=
          hv2.subset ((List.perm_insertionSort le vals2).subset hb)
        exact sortLe_antisymm_on ord s.sorted_by s.sort_order hcons (storeValues s)
          hnoties a hmema b hmemb hab hba
      exact eq_of_perm_of_sorted_anti hperm_fin hsorted_fin hsorted hanti

/-- Witness for C5 at a concrete two-row table over `Bool` payloads with the
total-order comparator `c5_ord`. -/
theorem sort_toggle_twice_restores_order_witness :
    ∃ s1 s2, change_sort_order c5_witness_state = some s1 ∧
      change_sort_order ((rowsAccessorWith c5_ord (recreate_rows s1)
        (storeValues c5_witness_state)).2) = some s2 ∧
      (rowsAccessorWith c5_ord (recreate_rows s2)
        (storeValues c5_witness_state)).2.formatted_rows =
          c5_witness_state.formatted_rows :=
  sort_toggle_twice_restores_order c5_ord c5_witness_state
    (storeValues c5_witness_state) (storeValues c5_witness_state)
    (by decide) (by decide) (by decide) (by decide) (by decide) (by decide) (by decide)
    (by decide) (by decide) (by decide)

theorem alookup_aset_self {α β : Type} [DecidableEq α] (k : α) (v : β) :
    ∀ m : List (α × β), alookup k (aset k v m) = some v := by
  intro m
  induction m with
  | nil => simp [aset, alookup]
  | cons p ps ih =>
    unfold aset
    split
    · unfold alookup
      simp
    · unfold alookup
      rw [if_neg (by assumption)]
      exact ih

theorem alookup_aset_ne {α β : Type} [DecidableEq α] (k k2 : α) (v : β) (hne : k ≠ k2) :
    ∀ m : List (α × β), alookup k2 (aset k v m) = alookup k2 m := by
  intro m
  induction m with
  | nil => simp [aset, alookup, hne]
  | cons p ps ih =>
    unfold aset
    split
    · unfold alookup
      rename_i hp
      rw [if_neg (by rw [hp] at *; exact hne), if_neg (by rw [hp]; exact hne)]
    · unfold alookup
      by_cases hp2 : p.1 = k2
      · rw [if_pos hp2, if_pos hp2]
      · rw [if_neg hp2, if_neg hp2]
        exact ih

theorem updMaxLen_lookup_self (m : List (F × Nat)) (c : F) (len : Nat) :
    alookup c (updMaxLen m c len) = some (max ((alookup c m).getD 0) len) := by
  unfold updMaxLen
  cases h : alookup c m with
  | none =>
    simp only [h, Option.getD_none]
    by_cases hl : len > 0
    · rw [if_pos hl, alookup_aset_self]
      congr 1
      omega
    · rw [if_neg hl, alookup_aset_self]
      congr 1
      omega
  | some v =>
    simp only [h, Option.getD_some]
    by_cases hl : len > v
    · rw [if_pos hl, alookup_aset_self]
      congr 1
      omega
    · rw [if_neg hl, h]
      congr 1
      omega

theorem updMaxLen_lookup_ne (m : List (F × Nat)) (c c2 : F) (len : Nat) (hne : c ≠ c2) :
    alookup c2 (updMaxLen m c len) = alookup c2 m := by
  unfold updMaxLen
  cases h : alookup c m with
  | none =>
    simp only [h, Option.getD_none]
    by_cases hl : len > 0
    · rw [if_pos hl, alookup_aset_ne _ _ _ hne, alookup_aset_ne _ _ _ hne]
    · rw [if_neg hl, alookup_aset_ne _ _ _ hne]
  | some v =>
    simp only [h, Option.getD_some]
    by_cases hl : len > v
    · rw [if_pos hl, alookup_aset_ne _ _ _ hne]
    · rw [if_neg hl]

theorem rowMaxStep_lookup (ctext : F → Row → String) (r : SelectableRow Row F) :
    ∀ (cols : List F) (m : List (F × Nat)), cols.Nodup → ∀ c : F,
    alookup c (rowMaxStep ctext r m cols) =
      if c ∈ cols ∧ c ∈ r.selected_columns then
        some (max ((alookup c m).getD 0) (ctext c r.row_data).length)
      else alookup c m := by
  intro cols
  induction cols with
  | nil =>
    intro m _ c
    simp [rowMaxStep]
  | cons d ds ih =>
    intro m hnd c
    rw [List.nodup_cons] at hnd
    have hstep : rowMaxStep ctext r m (d :: ds) =
        rowMaxStep ctext r (if d ∈ r.selected_columns then
          updMaxLen m d (ctext d r.row_data).length else m) ds := by
      unfold rowMaxStep
      rw [List.foldl_cons]
    rw [hstep, ih _ hnd.2 c]
    by_cases hcd : c = d
    · subst hcd
      rw [if_neg (fun h => hnd.1 h.1)]
      by_cases hsel : c ∈ r.selected_columns
      · rw [if_pos hsel, if_pos ⟨List.mem_cons_self c ds, hsel⟩, updMaxLen_lookup_self]
      · rw [if_neg hsel, if_neg (fun h => hsel h.2)]
    · have hlk : alookup c (if d ∈ r.selected_columns then
          updMaxLen m d (ctext d r.row_data).length else m) = alookup c m := by
        split
        · exact updMaxLen_lookup_ne m d c _ (fun h => hcd h.symm)
        · rfl
      rw [hlk]
      by_cases hds : c ∈ ds ∧ c ∈ r.selected_columns
      · rw [if_pos hds, if_pos ⟨List.mem_cons_of_mem d hds.1, hds.2⟩]
      · rw [if_neg hds, if_neg (fun h => hds ⟨by
          rcases List.mem_cons.mp h.1 with h1 | h1
          · exact absurd h1 hcd
          · exact h1, h.2⟩)]

theorem collectRows_inv (s : TableState Row F) (ctext : F → Row → String)
    (hacnd : s.active_columns.Nodup) :
    ∀ (rows acc : List (SelectableRow Row F)) (m : List (F × Nat)),
    (∀ c ∈ s.active_columns, ∀ M, alookup c m = some M →
      (∃ r ∈ acc, c ∈ r.selected_columns ∧ (ctext c r.row_data).length = M) ∧
      (∀ r ∈ acc, c ∈ r.selected_columns → (ctext c r.row_data).length ≤ M)) →
    (∀ c ∈ s.active_columns, (∃ r ∈ acc, c ∈ r.selected_columns) →
      (alookup c m).isSome = true) →
    ∃ (acc2 : List (SelectableRow Row F)) (m2 : List (F × Nat)),
      collectRows s ctext rows acc m = (acc2.reverse, m2) ∧
      (∀ c ∈ s.active_columns, ∀ M, alookup c m2 = some M →
        (∃ r ∈ acc2, c ∈ r.selected_columns ∧ (ctext c r.row_data).length = M) ∧
        (∀ r ∈ acc2, c ∈ r.selected_columns → (ctext c r.row_data).length ≤ M)) ∧
      (∀ c ∈ s.active_columns, (∃ r ∈ acc2, c ∈ r.selected_columns) →
        (alookup c m2).isSome = true) := by
  intro rows
  induction rows with
  | nil =>
    intro acc m hP hQ
    exact ⟨acc, m, rfl, hP, hQ⟩
  | cons r rest ih =>
    intro acc m hP hQ
    by_cases hre : r.selected_columns.isEmpty = true
    · have hcr : collectRows s ctext (r :: rest) acc m = collectRows s ctext rest acc m := by
        rw [collectRows, if_pos hre]
      rw [hcr]
      exact ih acc m hP hQ
    · have hselne : r.selected_columns ≠ [] := by
        intro h
        exact hre (by rw [h]; rfl)
      have hP1 : ∀ c ∈ s.active_columns, ∀ M,
          alookup c (rowMaxStep ctext r m s.active_columns) = some M →
          (∃ x ∈ r :: acc, c ∈ x.selected_columns ∧ (ctext c x.row_data).length = M) ∧
          (∀ x ∈ r :: acc, c ∈ x.selected_columns → (ctext c x.row_data).length ≤ M) := by
        intro c hc M hM
        rw [rowMaxStep_lookup ctext r s.active_columns m hacnd c] at hM
        by_cases hsel : c ∈ r.selected_columns
        · rw [if_pos ⟨hc, hsel⟩] at hM
          injection hM with hM
          cases halt : alookup c m with
          | none =>
            rw [halt] at hM
            simp only [Option.getD_none, Nat.zero_max] at hM
            constructor
            · exact ⟨r, List.mem_cons_self r acc, hsel, hM⟩
            · intro x hx hxsel
              rcases List.mem_cons.mp hx with h1 | h1
              · subst h1
                omega
              · exact absurd (hQ c hc ⟨x, h1, hxsel⟩) (by rw [halt]; simp)
          | some o =>
            rw [halt] at hM
            simp only [Option.getD_some] at hM
            obtain ⟨⟨r0, hr0, hsel0, hlen0⟩, hdom0⟩ := hP c hc o halt
            constructor
            · by_cases hcase : o ≤ (ctext c r.row_data).length
              · exact ⟨r, List.mem_cons_self r acc, hsel, by omega⟩
              · exact ⟨r0, List.mem_cons_of_mem r hr0, hsel0, by omega⟩
            · intro x hx hxsel
              rcases List.mem_cons.mp hx with h1 | h1
              · subst h1
                omega
              · have := hdom0 x h1 hxsel
                omega
        · rw [if_neg (fun h => hsel h.2)] at hM
          obtain ⟨⟨r0, hr0, hsel0, hlen0⟩, hdom0⟩ := hP c hc M hM
          constructor
          · exact ⟨r0, List.mem_cons_of_mem r hr0, hsel0, hlen0⟩
          · intro x hx hxsel
            rcases List.mem_cons.mp hx with h1 | h1
            · subst h1
              exact absurd hxsel hsel
            · exact hdom0 x h1 hxsel
      have hQ1 : ∀ c ∈ s.active_columns, (∃ x ∈ r :: acc, c ∈ x.selected_columns) →
          (alookup c (rowMaxStep ctext r m s.active_columns)).isSome = true := by
        intro c hc ⟨x, hx, hxsel⟩
        rw [rowMaxStep_lookup ctext r s.active_columns m hacnd c]
        rcases List.mem_cons.mp hx with h1 | h1
        · subst h1
          rw [if_pos ⟨hc, hxsel⟩]
          rfl
        · by_cases hsel : c ∈ r.selected_columns
          · rw [if_pos ⟨hc, hsel⟩]
            rfl
          · rw [if_neg (fun h => hsel h.2)]
            exact hQ c hc ⟨x, h1, hxsel⟩
      by_cases hlen : (r :: acc).length = s.active_rows.length
      · have hcr : collectRows s ctext (r :: rest) acc m =
            ((r :: acc).reverse, rowMaxStep ctext r m s.active_columns) := by
          rw [collectRows, if_neg hre]
          dsimp only
          rw [if_pos hlen]
        exact ⟨r :: acc, rowMaxStep ctext r m s.active_columns, hcr, hP1, hQ1⟩
      · have hcr : collectRows s ctext (r :: rest) acc m =
            collectRows s ctext rest (r :: acc) (rowMaxStep ctext r m s.active_columns) := by
          rw [collectRows, if_neg hre]
          dsimp only
          rw [if_neg hlen]
        rw [hcr]
        exact ih (r :: acc) (rowMaxStep ctext r m s.active_columns) hP1 hQ1

theorem padTo_length (str : String) (w : Nat) : (padTo str w).length = max str.length w := by
  unfold padTo
  rw [String.length_append]
  have hrep : (String.mk (List.replicate (w - str.length) (Char.ofNat 32))).length =
      w - str.length := by
    show (List.replicate (w - str.length) (Char.ofNat 32)).length = w - str.length
    rw [List.length_replicate]
  rw [hrep]
  omega

theorem colnum_of_get (s : TableState Row F) (hcnd : s.all_columns.Nodup)
    (hcolnum : s.column_number = idxPairs (fun c => c) s.all_columns)
    (k : Nat) (c : F) (h : s.all_columns.get? k = some c) :
    column_to_num s c = some k := by
  unfold column_to_num
  rw [hcolnum]
  have h2 := alookup_idxPairsFrom_of_get (fun x => x) s.all_columns 0 k c
    (by simpa using hcnd) h
  simpa [idxPairs] using h2

theorem rowTextLoop_concat (s : TableState Row F) (ctext : F → Row → String)
    (m : List (F × Nat)) (r : SelectableRow Row F)
    (hcnd : s.all_columns.Nodup)
    (hcolnum : s.column_number = idxPairs (fun c => c) s.all_columns) :
    ∀ (fuel k : Nat) (c : F) (acc : String), fuel = s.all_columns.length - k →
    s.all_columns.get? k = some c →
    rowTextLoop s ctext m r fuel c acc =
      (fieldsConcat s ctext m r (s.all_columns.drop k)).map (fun t => acc ++ t) := by
  intro fuel
  induction fuel with
  | zero =>
    intro k c acc hfuel hget
    have hk : k < s.all_columns.length := by
      rcases List.get?_eq_some.mp hget with ⟨h, _⟩
      exact h
    omega
  | succ n ih =>
    intro k c acc hfuel hget
    have hk : k < s.all_columns.length := by
      rcases List.get?_eq_some.mp hget with ⟨h, _⟩
      exact h
    have hdrop : s.all_columns.drop k = c :: s.all_columns.drop (k + 1) := by
      rw [List.drop_eq_getElem_cons hk]
      congr 1
      rcases List.get?_eq_some.mp hget with ⟨h1, h2⟩
      rw [← h2]
      rfl
    rw [rowTextLoop, hdrop]
    cases hf : fieldFor s ctext m r c with
    | none => simp [fieldsConcat, hf]
    | some fld =>
      have hlenpos : s.all_columns.length - 1 < s.all_columns.length := by omega
      obtain ⟨lc, hlc⟩ : ∃ lc, s.all_columns.get? (s.all_columns.length - 1) = some lc := by
        cases h2 : s.all_columns.get? (s.all_columns.length - 1) with
        | none =>
          rw [List.get?_eq_none] at h2
          omega
        | some x => exact ⟨x, rfl⟩
      have hlcval : last_column s = some lc := hlc
      dsimp only
      rw [hlcval]
      dsimp only
      by_cases hlast : k = s.all_columns.length - 1
      · have hlceq : lc = c := by
          rw [← hlast] at hlc
          rw [hget] at hlc
          injection hlc with h3
          exact h3.symm
        rw [if_pos hlceq]
        have hdropnil : s.all_columns.drop (k + 1) = [] := List.drop_eq_nil_of_le (by omega)
        rw [hdropnil]
        simp [fieldsConcat, hf, String.append_empty]
      · have hlcne : lc ≠ c := by
          intro heq
          apply hlast
          have h3 : s.all_columns.get? (s.all_columns.length - 1) = s.all_columns.get? k := by
            rw [hget, hlc, heq]
          exact (List.get?_inj hlenpos hcnd h3).symm
        rw [if_neg hlcne]
        have hctn : column_to_num s c = some k := colnum_of_get s hcnd hcolnum k c hget
        have hk1 : k + 1 < s.all_columns.length := by omega
        obtain ⟨c2, hc2⟩ : ∃ c2, s.all_columns.get? (k + 1) = some c2 := by
          cases h2 : s.all_columns.get? (k + 1) with
          | none =>
            rw [List.get?_eq_none] at h2
            omega
          | some x => exact ⟨x, rfl⟩
        have hnext : next_column s c = some c2 := by
          unfold next_column
          rw [hctn]
          dsimp only
          rw [if_neg hlast, hc2]
        rw [hnext]
        dsimp only
        rw [ih (k + 1) c2 (acc ++ fld) (by omega) hc2]
        cases hrest : fieldsConcat s ctext m r (s.all_columns.drop (k + 1)) with
        | none => simp [fieldsConcat, hf, hrest]
        | some t => simp [fieldsConcat, hf, hrest, String.append_assoc]

/-- C9: in the clipboard formatter (full-row mode off), for every active
column with a recorded width entry `M`, (a) `M` is attained by one of the
emitted rows that select the column and dominates the text length of that
column for every emitted row that selects it, (b) the field emitted for that
column for every emitted row — cell text or blank placeholder — is a string
of length exactly `M + 1` (left-justified text padded one past the column
maximum), and (c) each emitted line is the concatenation of the per-column
fields in fixed column order. -/
theorem copy_selected_cells_field_widths (s : TableState Row F) (ctext : F → Row → String)
    (hfull : s.select_full_row = false)
    (hacnd : s.active_columns.Nodup)
    (hcnd : s.all_columns.Nodup)
    (hcolnum : s.column_number = idxPairs (fun c => c) s.all_columns) :
    (copy_selected_cells s ctext = copyLinesLoop s ctext
      (collectRows s ctext s.formatted_rows [] []).2
      (collectRows s ctext s.formatted_rows [] []).1 "") ∧
    (∀ c ∈ s.active_columns, ∀ M,
      alookup c (collectRows s ctext s.formatted_rows [] []).2 = some M →
      (∃ r ∈ (collectRows s ctext s.formatted_rows [] []).1,
        c ∈ r.selected_columns ∧ (ctext c r.row_data).length = M) ∧
      (∀ r ∈ (collectRows s ctext s.formatted_rows [] []).1,
        c ∈ r.selected_columns → (ctext c r.row_data).length ≤ M) ∧
      (∀ r ∈ (collectRows s ctext s.formatted_rows [] []).1,
        ∃ fld, fieldFor s ctext (collectRows s ctext s.formatted_rows [] []).2 r c =
          some fld ∧ fld.length = M + 1)) ∧
    (∀ (m : List (F × Nat)) (r : SelectableRow Row F) (fc : F),
      first_column s = some fc →
      rowTextLoop s ctext m r s.all_columns.length fc "" =
        (fieldsConcat s ctext m r s.all_columns).map (fun t => "" ++ t)) := by
  obtain ⟨acc2, m2, heq, hP2, hQ2⟩ := collectRows_inv s ctext hacnd s.formatted_rows [] []
    (by
      intro c _ M hM
      simp [alookup] at hM)
    (by
      intro c _ hex
      obtain ⟨r, hr, _⟩ := hex
      simp at hr)
  refine ⟨?_, ?_, ?_⟩
  · unfold copy_selected_cells
    rw [hfull]
    rfl
  · intro c hc M hM
    rw [heq] at hM
    dsimp only at hM
    obtain ⟨⟨r0, hr0, hsel0, hlen0⟩, hdom⟩ := hP2 c hc M hM
    refine ⟨?_, ?_, ?_⟩
    · rw [heq]
      exact ⟨r0, List.mem_reverse.mpr hr0, hsel0, hlen0⟩
    · intro r hr hsel
      rw [heq] at hr
      exact hdom r (List.mem_reverse.mp hr) hsel
    · intro r hr
      rw [heq] at hr ⊢
      dsimp only at hr ⊢
      have hrdom : c ∈ r.selected_columns → (ctext c r.row_data).length ≤ M :=
        hdom r (List.mem_reverse.mp hr)
      by_cases hsel : c ∈ r.selected_columns
      · refine ⟨padTo (ctext c r.row_data) (M + 1), ?_, ?_⟩
        · unfold fieldFor
          rw [if_pos ⟨hc, hsel⟩, hM]
        · rw [padTo_length]
          have := hrdom hsel
          omega
      · refine ⟨padTo "" (M + 1), ?_, ?_⟩
        · unfold fieldFor
          rw [if_neg (fun h => hsel h.2), if_pos ⟨hc, hsel⟩, hM]
        · rw [padTo_length]
          have hz : ("" : String).length = 0 := rfl
          omega
  · intro m r fc hfc
    have hget : s.all_columns.get? 0 = some fc := hfc
    have := rowTextLoop_concat s ctext m r hcnd hcolnum s.all_columns.length 0 fc ""
      (by omega) hget
    rw [List.drop_zero] at this
    exact this

/-- Witness for C9 at a concrete table with a short and a long cell in the
same active column. -/
theorem copy_selected_cells_field_widths_witness :
    (copy_selected_cells c9_witness_state c9_ctext = copyLinesLoop c9_witness_state c9_ctext
      (collectRows c9_witness_state c9_ctext c9_witness_state.formatted_rows [] []).2
      (collectRows c9_witness_state c9_ctext c9_witness_state.formatted_rows [] []).1 "") ∧
    (∀ c ∈ c9_witness_state.active_columns, ∀ M,
      alookup c (collectRows c9_witness_state c9_ctext
        c9_witness_state.formatted_rows [] []).2 = some M →
      (∃ r ∈ (collectRows c9_witness_state c9_ctext
          c9_witness_state.formatted_rows [] []).1,
        c ∈ r.selected_columns ∧ (c9_ctext c r.row_data).length = M) ∧
      (∀ r ∈ (collectRows c9_witness_state c9_ctext
          c9_witness_state.formatted_rows [] []).1,
        c ∈ r.selected_columns → (c9_ctext c r.row_data).length ≤ M) ∧
      (∀ r ∈ (collectRows c9_witness_state c9_ctext
          c9_witness_state.formatted_rows [] []).1,
        ∃ fld, fieldFor c9_witness_state c9_ctext (collectRows c9_witness_state c9_ctext
          c9_witness_state.formatted_rows [] []).2 r c =
          some fld ∧ fld.length = M + 1)) ∧
    (∀ (m : List (Nat × Nat)) (r : SelectableRow Nat Nat) (fc : Nat),
      first_column c9_witness_state = some fc →
      rowTextLoop c9_witness_state c9_ctext m r
          c9_witness_state.all_columns.length fc "" =
        (fieldsConcat c9_witness_state c9_ctext m r
          c9_witness_state.all_columns).map (fun t => "" ++ t)) :=
  copy_selected_cells_field_widths c9_witness_state c9_ctext
    (by decide) (by decide) (by decide) (by decide)

theorem modifyIdx_of_length_le {α : Type} (f : α → α) :
    ∀ (l : List α) (i : Nat), l.length ≤ i → modifyIdx l i f = l := by
  intro l
  induction l with
  | nil => intro i _; rfl
  | cons a l ih =>
    intro i hlen
    cases i with
    | zero => simp at hlen
    | succ n =>
      simp only [List.length_cons] at hlen
      simp only [modifyIdx]
      rw [ih n (by omega)]

theorem dragStep_refl (s : TableState Row F) : DragStep s s :=
  ⟨rfl, rfl, fun h => h, fun h => h, fun _ hi => hi⟩

theorem dragStep_trans {s t u : TableState Row F} (h1 : DragStep s t) (h2 : DragStep t u) :
    DragStep s u := by
  obtain ⟨a1, b1, c1, d1, e1⟩ := h1
  obtain ⟨a2, b2, c2, d2, e2⟩ := h2
  exact ⟨a2.trans a1, b2.trans b1, fun h => c2 (c1 h), fun h => d2 (d1 h),
    fun i hi => e2 i (e1 i hi)⟩

theorem dragStep_of_fields {s t : TableState Row F}
    (h1 : t.formatted_rows = s.formatted_rows)
    (h2 : t.indexed_ids = s.indexed_ids)
    (h3 : t.active_rows = s.active_rows) : DragStep s t := by
  refine ⟨by rw [h1], h2, by rw [h3]; exact fun h => h, ?_, by rw [h3]; exact fun _ hi => hi⟩
  intro hs r hr hne
  rw [h3]
  exact hs r (h1 ▸ hr) hne

theorem selInv_modify {s : TableState Row F} (i : Nat) (f : SelectableRow Row F → SelectableRow Row F)
    (cr : SelectableRow Row F) (hget : s.formatted_rows.get? i = some cr)
    (hid : ∀ r, (f r).id = r.id) (ar : List Int)
    (har : ∀ j ∈ s.active_rows, j ∈ ar)
    (hfcr : (f cr).selected_columns ≠ [] → (f cr).id ∈ ar)
    (hs : SelInv s) :
    ∀ r ∈ modifyIdx s.formatted_rows i f, r.selected_columns ≠ [] → r.id ∈ ar := by
  intro r hr hne
  obtain ⟨j, hj⟩ := List.get?_of_mem hr
  by_cases hij : j = i
  · subst hij
    rw [get?_modifyIdx_self f _ _ _ hget] at hj
    injection hj with hj
    subst hj
    exact hfcr hne
  · rw [get?_modifyIdx_ne f _ _ _ hij] at hj
    exact har _ (hs r (List.get?_mem hj) hne)

theorem dragStep_modify_insert {s t : TableState Row F} (i : Nat)
    (f : SelectableRow Row F → SelectableRow Row F) (cr : SelectableRow Row F)
    (hget : s.formatted_rows.get? i = some cr)
    (hid : ∀ r, (f r).id = r.id)
    (h1 : t.formatted_rows = modifyIdx s.formatted_rows i f)
    (h2 : t.indexed_ids = s.indexed_ids)
    (h3 : t.active_rows = hsInsert cr.id s.active_rows) : DragStep s t := by
  refine ⟨?_, h2, ?_, ?_, ?_⟩
  · rw [h1]
    exact map_modifyIdx _ f hid _ _
  · rw [h3]
    exact fun h => hsInsert_nodup h
  · intro hs r hr hne
    rw [h3]
    rw [h1] at hr
    refine selInv_modify i f cr hget hid _ ?_ ?_ hs r hr hne
    · exact fun j hj => hsInsert_mem.mpr (Or.inr hj)
    · intro _
      rw [hid]
      exact hsInsert_mem.mpr (Or.inl rfl)
  · intro j hj
    rw [h3]
    exact hsInsert_mem.mpr (Or.inr hj)

theorem dragStep_modify_shrink {s t : TableState Row F} (i : Nat)
    (f : SelectableRow Row F → SelectableRow Row F)
    (hid : ∀ r, (f r).id = r.id)
    (hshrink : ∀ r, (f r).selected_columns ≠ [] → r.selected_columns ≠ [])
    (h1 : t.formatted_rows = modifyIdx s.formatted_rows i f)
    (h2 : t.indexed_ids = s.indexed_ids)
    (h3 : t.active_rows = s.active_rows) : DragStep s t := by
  refine ⟨?_, h2, by rw [h3]; exact fun h => h, ?_, by rw [h3]; exact fun _ hi => hi⟩
  · rw [h1]
    exact map_modifyIdx _ f hid _ _
  · intro hs r hr hne
    rw [h3]
    rw [h1] at hr
    obtain ⟨j, hj⟩ := List.get?_of_mem hr
    by_cases hget : ∃ cr, s.formatted_rows.get? i = some cr
    · obtain ⟨cr, hcr⟩ := hget
      refine selInv_modify i f cr hcr hid _ (fun j hj => hj) ?_ hs r hr hne
      intro hne2
      rw [hid]
      exact hs cr (List.get?_mem hcr) (hshrink cr hne2)
    · have hnone : s.formatted_rows.get? i = none := by
        cases hx : s.formatted_rows.get? i with
        | none => rfl
        | some v => exact absurd ⟨v, hx⟩ hget
      rw [modifyIdx_of_length_le f _ _ (List.get?_eq_none.mp hnone)] at hr
      exact hs r hr hne

theorem check_row_selection_dragStep :
    ∀ (fuel : Nat) (s : TableState Row F) (cp : Bool) (idx ds : Nat)
      (s' : TableState Row F),
    check_row_selection s cp idx ds fuel = some s' → DragStep s s' := by
  intro fuel
  induction fuel with
  | zero =>
    intro s cp idx ds s' h
    exact absurd h (by simp [check_row_selection])
  | succ n ih =>
    intro s cp idx ds s' h
    simp only [check_row_selection] at h
    by_cases h1 : idx = 0 ∧ cp = true
    · rw [if_pos h1] at h
      injection h with h
      subst h
      exact dragStep_refl s
    · rw [if_neg h1] at h
      by_cases h2 : idx + 1 = s.formatted_rows.length ∧ cp = false
      · rw [if_pos h2] at h
        injection h with h
        subst h
        exact dragStep_refl s
      · rw [if_neg h2] at h
        generalize hI : (if cp = true then idx - 1 else idx + 1) = i1 at h
        cases hget : s.formatted_rows.get? i1 with
        | none =>
          rw [hget] at h
          simp at h
        | some current_row =>
          rw [hget] at h
          dsimp only at h
          by_cases hU : (if (cp = true ∧ i1 ≥ ds) ∨ (cp = false ∧ i1 ≤ ds) then false
              else current_row.selected_columns.isEmpty) = false
          · rw [if_pos hU] at h
            have hstep : DragStep s { s with
                formatted_rows := modifyIdx s.formatted_rows i1 (fun r =>
                  { r with selected_columns :=
                      if s.select_full_row = true then hsExtend r.selected_columns s.all_columns
                      else s.active_columns })
                active_rows := hsInsert current_row.id s.active_rows } :=
              dragStep_modify_insert i1 (fun r =>
                  { r with selected_columns :=
                      if s.select_full_row = true then hsExtend r.selected_columns s.all_columns
                      else s.active_columns }) current_row hget (fun r => rfl) rfl rfl rfl
            by_cases hcp : cp = true
            · rw [if_pos hcp] at h
              by_cases hz : ¬(i1 = 0)
              · rw [if_pos hz] at h
                exact dragStep_trans hstep (ih _ _ _ _ _ h)
              · rw [if_neg hz] at h
                injection h with h
                subst h
                exact hstep
            · rw [if_neg hcp] at h
              rw [modifyIdx_length (fun r =>
                  { r with selected_columns :=
                      if s.select_full_row = true then hsExtend r.selected_columns s.all_columns
                      else s.active_columns }) s.formatted_rows i1] at h
              by_cases hz : ¬(i1 + 1 = s.formatted_rows.length)
              · rw [if_pos hz] at h
                exact dragStep_trans hstep (ih _ _ _ _ _ h)
              · rw [if_neg hz] at h
                injection h with h
                subst h
                exact hstep
          · rw [if_neg hU] at h
            injection h with h
            subst h
            exact dragStep_refl s

/-- Looking a row id up through a well-formed reverse index and reading the
snapshot at the returned position yields the row carrying that id. -/
theorem id_of_alookup_get {s : TableState Row F}
    (hidx : s.indexed_ids = idxPairs (fun r => r.id) s.formatted_rows)
    {i : Int} {j : Nat} {r : SelectableRow Row F}
    (hl : alookup i s.indexed_ids = some j)
    (hg : s.formatted_rows.get? j = some r) : r.id = i := by
  rw [hidx] at hl
  rw [idxPairs] at hl
  obtain ⟨j2, a, hga, hfa, hj⟩ :=
    alookup_idxPairsFrom_some (fun r => r.id) s.formatted_rows 0 i j hl
  have hjj : j2 = j := by omega
  subst hjj
  rw [hga] at hg
  injection hg with hg
  subst hg
  exact hfa

theorem removeStepOut_refl {s : TableState Row F} (ctrl : Bool) (hsel : SelInv s) :
    RemoveStepOut ctrl s s :=
  ⟨rfl, rfl, hsel, fun h => h, fun _ => rfl, fun _ hi => hi⟩

theorem removeStepOut_trans {ctrl : Bool} {s t u : TableState Row F}
    (h1 : RemoveStepOut ctrl s t) (h2 : RemoveStepOut ctrl t u) :
    RemoveStepOut ctrl s u := by
  obtain ⟨a1, b1, c1, d1, e1, f1⟩ := h1
  obtain ⟨a2, b2, c2, d2, e2, f2⟩ := h2
  exact ⟨a2.trans a1, b2.trans b1, c2, fun h => d2 (d1 h),
    fun hc => (e2 hc).trans (e1 hc), fun i hi => f1 i (f2 i hi)⟩

/-- The in-span branch of the `remove_row_selection` loop body: overwriting the
target row's selection is safe because the target row is active. -/
theorem removeStepA_out {s : TableState Row F} (ctrl : Bool) (oi : Nat)
    (sel : List F) {tr : SelectableRow Row F}
    (hget : s.formatted_rows.get? oi = some tr)
    (hmemtr : tr.id ∈ s.active_rows) (hsel : SelInv s) :
    RemoveStepOut ctrl s { s with
      formatted_rows := modifyIdx s.formatted_rows oi
        (fun r => { r with selected_columns := sel }) } := by
  refine ⟨map_modifyIdx (fun r => r.id) (fun r => { r with selected_columns := sel })
    (fun r => rfl) s.formatted_rows oi, rfl, ?_, fun h => h, fun _ => rfl,
    fun _ hi => hi⟩
  intro r hr hne
  exact selInv_modify oi (fun r => { r with selected_columns := sel }) tr hget
    (fun r => rfl) s.active_rows (fun j hj => hj) (fun _ => hmemtr) hsel r hr hne

/-- The out-of-span, no-ctrl branch of the `remove_row_selection` loop body:
the target row's selection is cleared and its id is dropped from the active
set; every other selected row keeps a distinct id and stays active. -/
theorem removeStepB_out {s : TableState Row F} {ctrl : Bool} (oi : Nat)
    {tr : SelectableRow Row F}
    (hctrl : ctrl = false)
    (hget : s.formatted_rows.get? oi = some tr)
    (hids : (s.formatted_rows.map (fun r => r.id)).Nodup)
    (hsel : SelInv s) :
    RemoveStepOut ctrl s { s with
      formatted_rows := modifyIdx s.formatted_rows oi
        (fun r => { r with selected_columns := [] })
      active_rows := s.active_rows.erase tr.id } := by
  refine ⟨map_modifyIdx (fun r => r.id)
    (fun r => { r with selected_columns := ([] : List F) }) (fun r => rfl)
    s.formatted_rows oi, rfl, ?_, fun h => h.erase _,
    fun hc => absurd (hctrl ▸ hc) (by simp), fun i hi => List.mem_of_mem_erase hi⟩
  intro r hr hne
  obtain ⟨j, hj⟩ := List.get?_of_mem hr
  by_cases hji : j = oi
  · subst hji
    rw [get?_modifyIdx_self _ _ _ _ hget] at hj
    injection hj with hj
    exact absurd (congrArg (fun r => r.selected_columns) hj.symm) hne
  · rw [get?_modifyIdx_ne _ _ _ _ hji] at hj
    have hne2 : r.id ≠ tr.id :=
      nodup_map_get_ne (fun r => r.id) s.formatted_rows hids hj hget hji
    exact (List.mem_erase_of_ne hne2).mpr (hsel r (List.get?_mem hj) hne)

/-- The `remove_row_selection` loop: iterating the given duplicate-free list of
active row ids preserves the invariant bundle `RemoveStepOut`. -/
theorem removeRowLoop_props :
    ∀ (l : List Int) (s : TableState Row F) (ci ds : Nat) (ctrl : Bool)
      (s' : TableState Row F),
    removeRowLoop ci ds ctrl s l = some s' →
    s.indexed_ids = idxPairs (fun r => r.id) s.formatted_rows →
    (s.formatted_rows.map (fun r => r.id)).Nodup →
    SelInv s → l.Nodup → (∀ i ∈ l, i ∈ s.active_rows) →
    RemoveStepOut ctrl s s' := by
  intro l
  induction l with
  | nil =>
    intro s ci ds ctrl s' h _ _ hsel _ _
    rw [show removeRowLoop ci ds ctrl s [] = some s from rfl] at h
    injection h with h
    subst h
    exact removeStepOut_refl ctrl hsel
  | cons idv rest ih =>
    intro s ci ds ctrl s' h hidx hids hsel hnd hmem
    simp only [removeRowLoop] at h
    cases halook : alookup idv s.indexed_ids with
    | none =>
      rw [halook] at h
      simp at h
    | some oi =>
      rw [halook] at h
      dsimp only at h
      cases hget : s.formatted_rows.get? oi with
      | none =>
        rw [hget] at h
        simp at h
      | some tr =>
        rw [hget] at h
        dsimp only at h
        have htrid : tr.id = idv := id_of_alookup_get hidx halook hget
        have hmemtr : tr.id ∈ s.active_rows := htrid ▸ hmem idv (List.mem_cons_self idv rest)
        have hnd2 := List.nodup_cons.mp hnd
        have hcombine : ∀ (s1 : TableState Row F), RemoveStepOut ctrl s s1 →
            (∀ i ∈ rest, i ∈ s1.active_rows) →
            removeRowLoop ci ds ctrl s1 rest = some s' → RemoveStepOut ctrl s s' := by
          intro s1 hstep hmem1 hrun
          refine removeStepOut_trans hstep (ih s1 ci ds ctrl s' hrun ?_ ?_ hstep.2.2.1
            hnd2.2 hmem1)
          · rw [hstep.2.1, hidx]
            exact (idxPairsFrom_map_eq _ _ _ 0 hstep.1).symm
          · rw [hstep.1]
            exact hids
        by_cases hgt : ci > ds
        · rw [if_pos hgt] at h
          by_cases hin : oi ≥ ds ∧ oi ≤ ci
          · rw [if_pos hin] at h
            exact hcombine _ (removeStepA_out ctrl oi _ hget hmemtr hsel)
              (fun i hi => hmem i (List.mem_cons_of_mem idv hi)) h
          · rw [if_neg hin] at h
            by_cases hc : ctrl = false
            · rw [if_pos hc] at h
              refine hcombine _ (removeStepB_out oi hc hget hids hsel) ?_ h
              intro i hi
              refine (List.mem_erase_of_ne ?_).mpr (hmem i (List.mem_cons_of_mem idv hi))
              rw [htrid]
              intro hcontra
              exact hnd2.1 (hcontra ▸ hi)
            · rw [if_neg hc] at h
              exact hcombine _ (removeStepOut_refl ctrl hsel)
                (fun i hi => hmem i (List.mem_cons_of_mem idv hi)) h
        · rw [if_neg hgt] at h
          by_cases hin : oi ≤ ds ∧ oi ≥ ci
          · rw [if_pos hin] at h
            exact hcombine _ (removeStepA_out ctrl oi _ hget hmemtr hsel)
              (fun i hi => hmem i (List.mem_cons_of_mem idv hi)) h
          · rw [if_neg hin] at h
            by_cases hc : ctrl = false
            · rw [if_pos hc] at h
              refine hcombine _ (removeStepB_out oi hc hget hids hsel) ?_ h
              intro i hi
              refine (List.mem_erase_of_ne ?_).mpr (hmem i (List.mem_cons_of_mem idv hi))
              rw [htrid]
              intro hcontra
              exact hnd2.1 (hcontra ▸ hi)
            · rw [if_neg hc] at h
              exact hcombine _ (removeStepOut_refl ctrl hsel)
                (fun i hi => hmem i (List.mem_cons_of_mem idv hi)) h

/-- The final phase of the drag pipeline preserves the selection invariant and,
under ctrl, never drops an active row. -/
theorem dragFinish_props {st : TableState Row F × Bool} {i : Int} {ctrl : Bool}
    {ds : Int × F} {s' : TableState Row F}
    (hidxw : st.1.indexed_ids = idxPairs (fun r => r.id) st.1.formatted_rows)
    (hidsw : (st.1.formatted_rows.map (fun r => r.id)).Nodup)
    (hactw : st.1.active_rows.Nodup)
    (hselw : SelInv st.1)
    (h : dragFinish i ctrl ds st = some s') :
    SelInv s' ∧ (ctrl = true → ∀ j ∈ st.1.active_rows, j ∈ s'.active_rows) := by
  simp only [dragFinish] at h
  cases hl1 : alookup i st.1.indexed_ids with
  | none =>
    rw [hl1] at h
    simp at h
  | some ci2 =>
    rw [hl1] at h
    dsimp only at h
    cases hl2 : alookup ds.1 st.1.indexed_ids with
    | none =>
      rw [hl2] at h
      simp at h
    | some dsi =>
      rw [hl2] at h
      dsimp only at h
      by_cases hnc : st.2 = true
      · rw [if_pos hnc] at h
        dsimp only at h
        rw [remove_row_selection] at h
        have out := removeRowLoop_props st.1.active_rows st.1 ci2 dsi ctrl s' h
          hidxw hidsw hselw hactw (fun j hj => hj)
        refine ⟨out.2.2.1, fun hc j hj => ?_⟩
        rw [out.2.2.2.2.1 hc]
        exact hj
      · rw [if_neg hnc] at h
        cases hc1 : check_row_selection st.1 true ci2 dsi st.1.formatted_rows.length with
        | none =>
          rw [hc1] at h
          simp at h
        | some sa =>
          rw [hc1] at h
          dsimp only at h
          cases hc2 : check_row_selection sa false ci2 dsi sa.formatted_rows.length with
          | none =>
            rw [hc2] at h
            simp at h
          | some s5 =>
            rw [hc2] at h
            dsimp only at h
            rw [remove_row_selection] at h
            have hstep : DragStep st.1 s5 :=
              dragStep_trans (check_row_selection_dragStep _ _ _ _ _ _ hc1)
                (check_row_selection_dragStep _ _ _ _ _ _ hc2)
            have hidx5 : s5.indexed_ids = idxPairs (fun r => r.id) s5.formatted_rows := by
              rw [hstep.2.1, hidxw]
              exact (idxPairsFrom_map_eq _ _ _ 0 hstep.1).symm
            have hids5 : (s5.formatted_rows.map (fun r => r.id)).Nodup := by
              rw [hstep.1]
              exact hidsw
            have out := removeRowLoop_props s5.active_rows s5 ci2 dsi ctrl s' h
              hidx5 hids5 (hstep.2.2.2.1 hselw) (hstep.2.2.1 hactw) (fun j hj => hj)
            refine ⟨out.2.2.1, fun hc j hj => ?_⟩
            rw [out.2.2.2.2.1 hc]
            exact hstep.2.2.2.2 j hj

/-- The row phase of the drag pipeline preserves the selection invariant and,
under ctrl, never drops an active row. -/
theorem dragTail_props {s1 : TableState Row F} {i : Int} {c : F} {ctrl : Bool}
    {ds : Int × F} {s' : TableState Row F}
    (hidxw : s1.indexed_ids = idxPairs (fun r => r.id) s1.formatted_rows)
    (hidsw : (s1.formatted_rows.map (fun r => r.id)).Nodup)
    (hactw : s1.active_rows.Nodup)
    (hselw : SelInv s1)
    (h : dragTail i c ctrl ds s1 = some s') :
    SelInv s' ∧ (ctrl = true → ∀ j ∈ s1.active_rows, j ∈ s'.active_rows) := by
  simp only [dragTail] at h
  cases hl1 : alookup i s1.indexed_ids with
  | none =>
    rw [hl1] at h
    simp at h
  | some cri =>
    rw [hl1] at h
    dsimp only at h
    cases hg1 : s1.formatted_rows.get? cri with
    | none =>
      rw [hg1] at h
      simp at h
    | some current_row =>
      rw [hg1] at h
      dsimp only at h
      have hfin : ∀ (st : TableState Row F × Bool), DragStep s1 st.1 →
          dragFinish i ctrl ds st = some s' →
          SelInv s' ∧ (ctrl = true → ∀ j ∈ s1.active_rows, j ∈ s'.active_rows) := by
        intro st hstep hrun
        have hidx4 : st.1.indexed_ids = idxPairs (fun r => r.id) st.1.formatted_rows := by
          rw [hstep.2.1, hidxw]
          exact (idxPairsFrom_map_eq _ _ _ 0 hstep.1).symm
        have hids4 : (st.1.formatted_rows.map (fun r => r.id)).Nodup := by
          rw [hstep.1]
          exact hidsw
        obtain ⟨hout1, hout2⟩ := dragFinish_props hidx4 hids4 (hstep.2.2.1 hactw)
          (hstep.2.2.2.1 hselw) hrun
        exact ⟨hout1, fun hc j hj => hout2 hc j (hstep.2.2.2.2 j hj)⟩
      by_cases hcc : current_row.selected_columns.contains c = true ∧
          s1.last_active_row.isSome = true ∧ s1.last_active_column.isSome = true
      · rw [if_pos hcc] at h
        cases hlac : s1.last_active_column with
        | none =>
          rw [hlac] at h
          simp at h
        | some lac =>
          rw [hlac] at h
          cases hlar : s1.last_active_row with
          | none =>
            rw [hlar] at h
            simp at h
          | some lar =>
            rw [hlar] at h
            dsimp only at h
            by_cases hmod : lac ≠ c ∧ lar = i
            · rw [if_pos hmod] at h
              dsimp only at h
              have hstep1 : DragStep s1 { s1 with
                  formatted_rows := modifyIdx s1.formatted_rows cri (fun r =>
                    { r with selected_columns := r.selected_columns.erase lac })
                  active_columns := s1.active_columns.erase lac } :=
                dragStep_modify_shrink cri (fun r =>
                    { r with selected_columns := r.selected_columns.erase lac })
                  (fun r => rfl) (fun r hne hr0 => hne (by simp [hr0])) rfl rfl rfl
              cases hl2 : alookup lar s1.indexed_ids with
              | none =>
                rw [hl2] at h
                simp at h
              | some lri =>
                rw [hl2] at h
                dsimp only at h
                cases hg2 : (modifyIdx s1.formatted_rows cri (fun r =>
                    { r with selected_columns := r.selected_columns.erase lac })).get? lri with
                | none =>
                  rw [hg2] at h
                  simp at h
                | some last_row =>
                  rw [hg2] at h
                  dsimp only at h
                  by_cases hid2 : i = last_row.id
                  · rw [if_pos hid2] at h
                    rw [if_pos hmod.1] at h
                    dsimp only at h
                    exact hfin _ hstep1 h
                  · rw [if_neg hid2] at h
                    dsimp only at h
                    refine hfin _ (dragStep_trans hstep1 ?_) h
                    exact dragStep_modify_shrink lri (fun r =>
                        { r with selected_columns := ([] : List F) })
                      (fun r => rfl) (fun r hne => absurd rfl hne) rfl rfl rfl
            · rw [if_neg hmod] at h
              cases hl2 : alookup lar s1.indexed_ids with
              | none =>
                rw [hl2] at h
                simp at h
              | some lri =>
                rw [hl2] at h
                dsimp only at h
                cases hg2 : s1.formatted_rows.get? lri with
                | none =>
                  rw [hg2] at h
                  simp at h
                | some last_row =>
                  rw [hg2] at h
                  dsimp only at h
                  by_cases hid2 : i = last_row.id
                  · rw [if_pos hid2] at h
                    by_cases hnec : lac ≠ c
                    · rw [if_pos hnec] at h
                      dsimp only at h
                      exact hfin _ (dragStep_of_fields rfl rfl rfl) h
                    · rw [if_neg hnec] at h
                      dsimp only at h
                      exact hfin _ (dragStep_of_fields rfl rfl rfl) h
                  · rw [if_neg hid2] at h
                    dsimp only at h
                    refine hfin _ ?_ h
                    exact dragStep_modify_shrink lri (fun r =>
                        { r with selected_columns := ([] : List F) })
                      (fun r => rfl) (fun r hne => absurd rfl hne) rfl rfl rfl
      · rw [if_neg hcc] at h
        dsimp only at h
        refine hfin _ ?_ h
        exact dragStep_modify_insert cri (fun r =>
            { r with selected_columns := s1.active_columns }) current_row hg1
          (fun r => rfl) rfl rfl rfl

theorem select_dragged_props {s : TableState Row F} {i : Int} {c : F} {ctrl : Bool}
    {s' : TableState Row F}
    (hidx : s.indexed_ids = idxPairs (fun r => r.id) s.formatted_rows)
    (hids : (s.formatted_rows.map (fun r => r.id)).Nodup)
    (hact : s.active_rows.Nodup)
    (hsel : SelInv s)
    (h : select_dragged_row_cell s i c ctrl = some s') :
    SelInv s' ∧ (ctrl = true → ∀ j ∈ s.active_rows, j ∈ s'.active_rows) := by
  simp only [select_dragged_row_cell] at h
  by_cases hdedup : s.last_active_row = some i ∧ s.last_active_column = some c
  · rw [if_pos hdedup] at h
    injection h with h
    subst h
    exact ⟨hsel, fun _ j hj => hj⟩
  · rw [if_neg hdedup] at h
    by_cases hempty : s.formatted_rows.isEmpty = true
    · rw [if_pos hempty] at h
      injection h with h
      subst h
      exact ⟨hsel, fun _ j hj => hj⟩
    · rw [if_neg hempty] at h
      cases hds : s.drag_started_on with
      | none =>
        rw [hds] at h
        simp at h
      | some drag_start =>
        rw [hds] at h
        dsimp only at h
        simp only [column_to_num] at h
        cases hn1 : alookup drag_start.2 s.column_number with
        | none =>
          rw [hn1] at h
          simp at h
        | some dsn =>
          rw [hn1] at h
          dsimp only at h
          cases hn2 : alookup c s.column_number with
          | none =>
            rw [hn2] at h
            simp at h
          | some ocn =>
            rw [hn2] at h
            dsimp only at h
            have hmain : ∀ (s1 : TableState Row F),
                s1.indexed_ids = s.indexed_ids →
                s1.formatted_rows = s.formatted_rows →
                s1.active_rows = s.active_rows →
                dragTail i c ctrl drag_start s1 = some s' →
                SelInv s' ∧ (ctrl = true → ∀ j ∈ s.active_rows, j ∈ s'.active_rows) := by
              intro s1 h1 h2 h3 hrun
              have hidx1 : s1.indexed_ids = idxPairs (fun r => r.id) s1.formatted_rows := by
                rw [h1, h2]
                exact hidx
              have hids1 : (s1.formatted_rows.map (fun r => r.id)).Nodup := by
                rw [h2]
                exact hids
              have hact1 : s1.active_rows.Nodup := by
                rw [h3]
                exact hact
              have hsel1 : SelInv s1 := by
                intro r hr hne
                rw [h3]
                exact hsel r (h2 ▸ hr) hne
              obtain ⟨o1, o2⟩ := dragTail_props hidx1 hids1 hact1 hsel1 hrun
              refine ⟨o1, fun hc j hj => o2 hc j ?_⟩
              rw [h3]
              exact hj
            by_cases hctl : ctrl = true
            · rw [if_pos hctl] at h
              dsimp only at h
              refine hmain _ ?_ ?_ ?_ h <;> rfl
            · rw [if_neg hctl] at h
              by_cases heq : ocn = dsn
              · rw [if_pos heq] at h
                dsimp only at h
                refine hmain _ ?_ ?_ ?_ h <;> rfl
              · rw [if_neg heq] at h
                cases hsw : spanWalk { s with
                    drag_started_on := some drag_start
                    active_columns := hsInsert c s.active_columns
                    beyond_drag_point := true }
                  (decide (ocn > dsn)) c (s.all_columns.length + 1) drag_start.2 [] with
                | none =>
                  rw [hsw] at h
                  simp at h
                | some ncs =>
                  rw [hsw] at h
                  dsimp only at h
                  refine hmain _ ?_ ?_ ?_ h <;> rfl

/-- `select_single_row_cell` preserves the selection invariant: the touched row
is made active before its selection grows. -/
theorem select_single_selinv {s : TableState Row F} {i : Int} {c : F}
    {s' : TableState Row F}
    (hidx : s.indexed_ids = idxPairs (fun r => r.id) s.formatted_rows)
    (hsel : SelInv s)
    (h : select_single_row_cell s i c = some s') : SelInv s' := by
  simp only [select_single_row_cell] at h
  cases hl : alookup i s.indexed_ids with
  | none =>
    rw [hl] at h
    simp at h
  | some ti =>
    rw [hl] at h
    dsimp only at h
    cases hg : s.formatted_rows.get? ti with
    | none =>
      rw [hg] at h
      simp at h
    | some tr =>
      rw [hg] at h
      dsimp only at h
      have htr : tr.id = i := id_of_alookup_get hidx hl hg
      by_cases hfull : s.select_full_row = true
      · rw [if_pos hfull] at h
        injection h with h
        subst h
        intro r hr hne
        refine selInv_modify ti (fun r =>
            { r with selected_columns := hsExtend r.selected_columns s.all_columns })
          tr hg (fun r => rfl) _ ?_ (fun _ => hsInsert_mem.mpr (Or.inl htr)) hsel r hr hne
        exact fun j hj => hsInsert_mem.mpr (Or.inr (hsInsert_mem.mpr (Or.inr hj)))
      · rw [if_neg hfull] at h
        injection h with h
        subst h
        intro r hr hne
        refine selInv_modify ti (fun r =>
            { r with selected_columns := hsInsert c r.selected_columns })
          tr hg (fun r => rfl) _ ?_ (fun _ => hsInsert_mem.mpr (Or.inl htr)) hsel r hr hne
        exact fun j hj => hsInsert_mem.mpr (Or.inr (hsInsert_mem.mpr (Or.inr hj)))

/-- `select_all` preserves the selection invariant: every snapshot row id is
added to the active set. -/
theorem select_all_selinv (s : TableState Row F) : SelInv (select_all s) := by
  intro r hr _
  obtain ⟨r0, hr0, hfr⟩ := List.mem_map.mp hr
  subst hfr
  exact (hsExtend_mem _ _).mpr (Or.inr (List.mem_map_of_mem (fun r => r.id) hr0))

/-- `unselect_all` preserves the selection invariant (vacuously: it leaves no
selected cell at all when the state was well formed). -/
theorem unselect_all_selinv {s : TableState Row F} {s' : TableState Row F}
    (hidx : s.indexed_ids = idxPairs (fun r => r.id) s.formatted_rows)
    (hids : (s.formatted_rows.map (fun r => r.id)).Nodup)
    (hsub : ∀ i ∈ s.active_rows, i ∈ s.formatted_rows.map (fun r => r.id))
    (hsel : SelInv s)
    (h : unselect_all s = some s') : SelInv s' := by
  rw [unselect_all_spec s hidx hids hsub] at h
  injection h with h
  subst h
  intro r hr hne
  obtain ⟨r0, hr0, hfr⟩ := List.mem_map.mp hr
  by_cases hin : r0.id ∈ s.active_rows
  · rw [if_pos hin] at hfr
    subst hfr
    exact absurd rfl hne
  · rw [if_neg hin] at hfr
    subst hfr
    exact absurd (hsel r0 hr0 hne) hin

/-- C10: on a well-formed table (reverse index consistent, snapshot row ids
duplicate-free, active-row set duplicate-free and pointing into the snapshot),
every selection operation of the engine — `select_single_row_cell`,
`select_dragged_row_cell`, `select_all`, `unselect_all`, `recreate_rows`,
`clear_all_rows` — preserves the invariant that every snapshot row with a
non-empty selected-columns set has its id in the active-row set. -/
theorem selection_ops_preserve_selinv (s : TableState Row F)
    (hidx : WFidx s) (hact : WFactive s) (hsel : SelInv s) :
    (∀ (i : Int) (c : F) (s' : TableState Row F),
      select_single_row_cell s i c = some s' → SelInv s') ∧
    (∀ (i : Int) (c : F) (ctrl : Bool) (s' : TableState Row F),
      select_dragged_row_cell s i c ctrl = some s' → SelInv s') ∧
    SelInv (select_all s) ∧
    (∀ s' : TableState Row F, unselect_all s = some s' → SelInv s') ∧
    SelInv (recreate_rows s) ∧
    SelInv (clear_all_rows s) := by
  obtain ⟨hidx1, hids⟩ := hidx
  obtain ⟨hand, hsub⟩ := hact
  refine ⟨fun i c s' h => select_single_selinv hidx1 hsel h,
    fun i c ctrl s' h => (select_dragged_props hidx1 hids hand hsel h).1,
    select_all_selinv s,
    fun s' h => unselect_all_selinv hidx1 hids hsub hsel h,
    ?_, ?_⟩
  · intro r hr hne
    exact absurd hr (by simp [recreate_rows])
  · intro r hr hne
    exact absurd hr (by simp [clear_all_rows])

/-- C10 witness: the invariant hypotheses hold for the concrete two-row table
with one selected cell, and the theorem applies there. -/
theorem selection_ops_preserve_selinv_witness :
    SelInv (select_all sel_witness_state) ∧ SelInv (recreate_rows sel_witness_state) :=
  ⟨(selection_ops_preserve_selinv sel_witness_state (by decide) (by decide)
      (by decide)).2.2.1,
   (selection_ops_preserve_selinv sel_witness_state (by decide) (by decide)
      (by decide)).2.2.2.2.1⟩

/-- C2 counterexample: in a ctrl-held drag on row id 1 through columns 1, 2 and
back to 1, the cell (row 1, column 2) is selected after the second move and no
longer selected after the third — a ctrl-drag does remove previously selected
cells. -/
theorem ctrl_drag_removes_cell_counterexample :
    ((select_dragged_row_cell c2_start 1 1 true).bind (fun a =>
      select_dragged_row_cell a 1 2 true)).bind (fun b => cellSelected b 1 2) =
      some true ∧
    ((select_dragged_row_cell c2_start 1 1 true).bind (fun a =>
      select_dragged_row_cell a 1 2 true)).bind (fun b =>
        (select_dragged_row_cell b 1 1 true).bind (fun d => cellSelected d 1 2)) =
      some false := by
  decide

/-- C2 (amended): a drag-move processed with ctrl held never removes a row from
the active-row set, on a well-formed table (the cell-level half of the claim is
false: a ctrl-held move can deselect a previously selected cell of the last
touched row, see the counterexample). -/
theorem ctrl_drag_never_drops_active_rows (s : TableState Row F) (i : Int) (c : F)
    (s' : TableState Row F)
    (hidx : s.indexed_ids = idxPairs (fun r => r.id) s.formatted_rows)
    (hids : (s.formatted_rows.map (fun r => r.id)).Nodup)
    (hact : s.active_rows.Nodup)
    (hsel : SelInv s)
    (h : select_dragged_row_cell s i c true = some s') :
    ∀ j ∈ s.active_rows, j ∈ s'.active_rows :=
  (select_dragged_props hidx hids hact hsel h).2 rfl

/-- C2 witness: the amended theorem applies to a concrete ctrl-move on a table
whose drag-start row is active. -/
theorem ctrl_drag_never_drops_active_rows_witness :
    ∃ s' : TableState Nat Nat, select_dragged_row_cell c2_mid 1 1 true = some s' ∧
      ∀ j ∈ c2_mid.active_rows, j ∈ s'.active_rows := by
  cases hrun : select_dragged_row_cell c2_mid 1 1 true with
  | none => exact absurd hrun (by decide)
  | some s2 =>
    exact ⟨s2, rfl, ctrl_drag_never_drops_active_rows c2_mid 1 1 s2 (by decide)
      (by decide) (by decide) (by decide) hrun⟩

/-- C1 counterexample: an unmodified drag from (row 0, column 0) processing the
moves (row 2, column 3), (row 1, column 2), (row 1, column 3) ends with column
2 of row 1 selected but column 3 of row 1 not selected, although the last
processed move is on (row 1, column 3) and column 3 lies in the span from the
start column 0: the second move crosses rows and leaves `last_active_column`
stale at 3, so the third move is swallowed by the dedupe early-return. -/
theorem drag_span_exactness_counterexample :
    (((select_dragged_row_cell c1_start 2 3 false).bind (fun a =>
        select_dragged_row_cell a 1 2 false)).bind (fun b =>
        select_dragged_row_cell b 1 3 false)).bind (fun d => cellSelected d 1 2) =
      some true ∧
    (((select_dragged_row_cell c1_start 2 3 false).bind (fun a =>
        select_dragged_row_cell a 1 2 false)).bind (fun b =>
        select_dragged_row_cell b 1 3 false)).bind (fun d => cellSelected d 1 3) =
      some false := by
  decide

theorem selShape_congr {t : TableState Row F} {A : List F} {P Q : Nat → Prop}
    (h : SelShape t A P) (hpq : ∀ p, P p ↔ Q p) : SelShape t A Q := by
  intro p r hg
  obtain ⟨h1, h2⟩ := h p r hg
  exact ⟨fun hq => h1 ((hpq p).mpr hq), fun hq => h2 (fun hp => hq ((hpq p).mp hp))⟩

theorem actShape_congr {t : TableState Row F} {P Q : Nat → Prop}
    (h : ActShape t P) (hpq : ∀ p, P p ↔ Q p) : ActShape t Q := by
  intro j
  rw [h j]
  constructor
  · rintro ⟨p, r, hg, hid, hp⟩
    exact ⟨p, r, hg, hid, (hpq p).mp hp⟩
  · rintro ⟨p, r, hg, hid, hp⟩
    exact ⟨p, r, hg, hid, (hpq p).mpr hp⟩

/-- Reading back the column at the position returned by `column_to_num`. -/
theorem get_of_colnum (u : TableState Row F) (hWF : WFcols u) {c : F} {n : Nat}
    (h : column_to_num u c = some n) : u.all_columns.get? n = some c := by
  unfold column_to_num at h
  rw [hWF.2.2, idxPairs] at h
  obtain ⟨j, a, hg, hf, hn⟩ := alookup_idxPairsFrom_some (fun c => c) u.all_columns 0 c n h
  have hj : j = n := by omega
  subst hj
  rw [hg, hf]

theorem next_column_step (u : TableState Row F) (hWF : WFcols u) {m : Nat} {col : F}
    (hg : u.all_columns.get? m = some col) (hlt : m + 1 < u.all_columns.length) :
    next_column u col = u.all_columns.get? (m + 1) := by
  unfold next_column
  rw [colnum_of_get u hWF.2.1 hWF.2.2 m col hg]
  dsimp only
  rw [if_neg (by omega)]

theorem previous_column_step (u : TableState Row F) (hWF : WFcols u) {m : Nat} {col : F}
    (hg : u.all_columns.get? m = some col) (hpos : 0 < m) :
    previous_column u col = u.all_columns.get? (m - 1) := by
  unfold previous_column
  rw [colnum_of_get u hWF.2.1 hWF.2.2 m col hg]
  dsimp only
  rw [if_neg (by omega)]

theorem spanWalk_succ_next (u : TableState Row F) (c2 : F) (fuel : Nat) (col : F)
    (acc : List F) {nxt : F} (hn : next_column u col = some nxt) :
    spanWalk u true c2 (fuel + 1) col acc =
      (if nxt = c2 then some (hsInsert nxt (hsInsert col acc))
       else spanWalk u true c2 fuel nxt (hsInsert col acc)) := by
  rw [spanWalk]
  rw [show (if (true : Bool) = true then next_column u col else previous_column u col) =
    next_column u col from rfl]
  rw [hn]

theorem spanWalk_succ_prev (u : TableState Row F) (c2 : F) (fuel : Nat) (col : F)
    (acc : List F) {nxt : F} (hn : previous_column u col = some nxt) :
    spanWalk u false c2 (fuel + 1) col acc =
      (if nxt = c2 then some (hsInsert nxt (hsInsert col acc))
       else spanWalk u false c2 fuel nxt (hsInsert col acc)) := by
  rw [spanWalk]
  rw [show (if (false : Bool) = true then next_column u col else previous_column u col) =
    previous_column u col from rfl]
  rw [hn]

/-- The ascending column walk of `select_dragged_row_cell` collects exactly the
columns whose positions lie between the current and target positions. -/
theorem spanWalk_asc (u : TableState Row F) (hWF : WFcols u) (c2 : F) (n2 : Nat)
    (h2 : u.all_columns.get? n2 = some c2) :
    ∀ (fuel m : Nat) (col : F) (acc : List F),
    u.all_columns.get? m = some col → m < n2 → n2 - m ≤ fuel →
    ∃ res, spanWalk u true c2 fuel col acc = some res ∧
      ∀ x, x ∈ res ↔ x ∈ acc ∨ ∃ k, m ≤ k ∧ k ≤ n2 ∧ u.all_columns.get? k = some x := by
  intro fuel
  induction fuel with
  | zero =>
    intro m col acc _ hlt hf
    omega
  | succ f ih =>
    intro m col acc hg hlt hf
    have hlen2 : n2 < u.all_columns.length := (List.get?_eq_some.mp h2).1
    obtain ⟨col2, hcol2⟩ : ∃ col2, u.all_columns.get? (m + 1) = some col2 := by
      cases hx : u.all_columns.get? (m + 1) with
      | none => exact absurd (List.get?_eq_none.mp hx) (by omega)
      | some y => exact ⟨y, rfl⟩
    have hstep := next_column_step u hWF hg (by omega)
    rw [hcol2] at hstep
    rw [spanWalk_succ_next u c2 f col acc hstep]
    by_cases heq : col2 = c2
    · rw [if_pos heq]
      have hm1 : m + 1 = n2 := by
        subst heq
        exact List.get?_inj (by omega) hWF.2.1 (hcol2.trans h2.symm)
      refine ⟨_, rfl, fun x => ?_⟩
      constructor
      · intro hx
        rcases hsInsert_mem.mp hx with h | hx2
        · refine Or.inr ⟨n2, by omega, le_refl _, ?_⟩
          rw [h, heq]
          exact h2
        · rcases hsInsert_mem.mp hx2 with h | h
          · exact Or.inr ⟨m, le_refl _, by omega, by rw [h]; exact hg⟩
          · exact Or.inl h
      · rintro (h | ⟨k, hk1, hk2, hk3⟩)
        · exact hsInsert_mem.mpr (Or.inr (hsInsert_mem.mpr (Or.inr h)))
        · have : k = m ∨ k = n2 := by omega
          rcases this with hkm | hkn
          · subst hkm
            cases hg.symm.trans hk3
            exact hsInsert_mem.mpr (Or.inr (hsInsert_mem.mpr (Or.inl rfl)))
          · subst hkn
            cases h2.symm.trans hk3
            exact hsInsert_mem.mpr (Or.inl heq.symm)
    · rw [if_neg heq]
      have hm2 : m + 1 ≠ n2 := by
        intro hcon
        rw [hcon] at hcol2
        exact heq (Option.some.inj (hcol2.symm.trans h2))
      obtain ⟨res, hres, hmem⟩ := ih (m + 1) col2 (hsInsert col acc) hcol2 (by omega) (by omega)
      refine ⟨res, hres, fun x => ?_⟩
      rw [hmem x, hsInsert_mem]
      constructor
      · rintro ((h | h) | ⟨k, hk1, hk2, hk3⟩)
        · exact Or.inr ⟨m, le_refl _, by omega, by rw [h]; exact hg⟩
        · exact Or.inl h
        · exact Or.inr ⟨k, by omega, hk2, hk3⟩
      · rintro (h | ⟨k, hk1, hk2, hk3⟩)
        · exact Or.inl (Or.inr h)
        · by_cases hkm : k = m
          · subst hkm
            cases hg.symm.trans hk3
            exact Or.inl (Or.inl rfl)
          · exact Or.inr ⟨k, by omega, hk2, hk3⟩

/-- The descending column walk of `select_dragged_row_cell` collects exactly
the columns whose positions lie between the target and current positions. -/
theorem spanWalk_desc (u : TableState Row F) (hWF : WFcols u) (c2 : F) (n2 : Nat)
    (h2 : u.all_columns.get? n2 = some c2) :
    ∀ (fuel m : Nat) (col : F) (acc : List F),
    u.all_columns.get? m = some col → n2 < m → m - n2 ≤ fuel →
    ∃ res, spanWalk u false c2 fuel col acc = some res ∧
      ∀ x, x ∈ res ↔ x ∈ acc ∨ ∃ k, n2 ≤ k ∧ k ≤ m ∧ u.all_columns.get? k = some x := by
  intro fuel
  induction fuel with
  | zero =>
    intro m col acc _ hlt hf
    omega
  | succ f ih =>
    intro m col acc hg hlt hf
    obtain ⟨col2, hcol2⟩ : ∃ col2, u.all_columns.get? (m - 1) = some col2 := by
      cases hx : u.all_columns.get? (m - 1) with
      | none =>
        have hml : m < u.all_columns.length := (List.get?_eq_some.mp hg).1
        exact absurd (List.get?_eq_none.mp hx) (by omega)
      | some y => exact ⟨y, rfl⟩
    have hstep := previous_column_step u hWF hg (by omega)
    rw [hcol2] at hstep
    rw [spanWalk_succ_prev u c2 f col acc hstep]
    by_cases heq : col2 = c2
    · rw [if_pos heq]
      have hm1 : m - 1 = n2 := by
        subst heq
        exact List.get?_inj (by
          have hml : m < u.all_columns.length := (List.get?_eq_some.mp hg).1
          omega) hWF.2.1 (hcol2.trans h2.symm)
      refine ⟨_, rfl, fun x => ?_⟩
      constructor
      · intro hx
        rcases hsInsert_mem.mp hx with h | hx2
        · refine Or.inr ⟨n2, le_refl _, by omega, ?_⟩
          rw [h, heq]
          exact h2
        · rcases hsInsert_mem.mp hx2 with h | h
          · exact Or.inr ⟨m, by omega, le_refl _, by rw [h]; exact hg⟩
          · exact Or.inl h
      · rintro (h | ⟨k, hk1, hk2, hk3⟩)
        · exact hsInsert_mem.mpr (Or.inr (hsInsert_mem.mpr (Or.inr h)))
        · have : k = m ∨ k = n2 := by omega
          rcases this with hkm | hkn
          · subst hkm
            cases hg.symm.trans hk3
            exact hsInsert_mem.mpr (Or.inr (hsInsert_mem.mpr (Or.inl rfl)))
          · subst hkn
            cases h2.symm.trans hk3
            exact hsInsert_mem.mpr (Or.inl heq.symm)
    · rw [if_neg heq]
      have hm2 : m - 1 ≠ n2 := by
        intro hcon
        rw [hcon] at hcol2
        exact heq (Option.some.inj (hcol2.symm.trans h2))
      obtain ⟨res, hres, hmem⟩ := ih (m - 1) col2 (hsInsert col acc) hcol2 (by omega) (by omega)
      refine ⟨res, hres, fun x => ?_⟩
      rw [hmem x, hsInsert_mem]
      constructor
      · rintro ((h | h) | ⟨k, hk1, hk2, hk3⟩)
        · exact Or.inr ⟨m, by omega, le_refl _, by rw [h]; exact hg⟩
        · exact Or.inl h
        · exact Or.inr ⟨k, hk1, by omega, hk3⟩
      · rintro (h | ⟨k, hk1, hk2, hk3⟩)
        · exact Or.inl (Or.inr h)
        · by_cases hkm : k = m
          · subst hkm
            cases hg.symm.trans hk3
            exact Or.inl (Or.inl rfl)
          · exact Or.inr ⟨k, hk1, by omega, hk3⟩

/-- One forced repair step of `check_row_selection`: the row at position `i`
gets the working column set and becomes active. -/
theorem forced_step_shapes {t : TableState Row F} {A : List F} {P : Nat → Prop}
    {i : Nat} {cr : SelectableRow Row F}
    (hg : t.formatted_rows.get? i = some cr)
    (hfull : t.select_full_row = false)
    (hA : t.active_columns = A)
    (hsh : SelShape t A P) (hac : ActShape t P) :
    SelShape { t with
        formatted_rows := modifyIdx t.formatted_rows i (fun r =>
          { r with selected_columns := if t.select_full_row = true then
              hsExtend r.selected_columns t.all_columns else t.active_columns })
        active_rows := hsInsert cr.id t.active_rows } A (fun p => P p ∨ p = i) ∧
    ActShape { t with
        formatted_rows := modifyIdx t.formatted_rows i (fun r =>
          { r with selected_columns := if t.select_full_row = true then
              hsExtend r.selected_columns t.all_columns else t.active_columns })
        active_rows := hsInsert cr.id t.active_rows } (fun p => P p ∨ p = i) := by
  have hfmod : ∀ r : SelectableRow Row F,
      (if t.select_full_row = true then hsExtend r.selected_columns t.all_columns
       else t.active_columns) = A := by
    intro r
    rw [hfull, if_neg (fun hcon => Bool.noConfusion hcon), hA]
  constructor
  · intro p r hrg
    dsimp only at hrg
    by_cases hpi : p = i
    · subst hpi
      rw [get?_modifyIdx_self _ _ _ _ hg] at hrg
      injection hrg with hrg
      subst hrg
      exact ⟨fun _ => hfmod cr, fun hq => absurd (Or.inr rfl) hq⟩
    · rw [get?_modifyIdx_ne _ _ _ _ hpi] at hrg
      obtain ⟨h1, h2⟩ := hsh p r hrg
      exact ⟨fun hq => hq.elim h1 (fun hcon => absurd hcon hpi),
        fun hq => h2 (fun hp => hq (Or.inl hp))⟩
  · intro j
    dsimp only
    rw [hsInsert_mem, hac j]
    constructor
    · rintro (hj | ⟨p, r, hrg, hid, hp⟩)
      · refine ⟨i, _, get?_modifyIdx_self _ _ _ _ hg, ?_, Or.inr rfl⟩
        rw [hj]
      · by_cases hpi : p = i
        · subst hpi
          refine ⟨p, _, get?_modifyIdx_self _ _ _ _ hg, ?_, Or.inr rfl⟩
          rw [← hid]
          rw [hg] at hrg
          injection hrg with hrg
          rw [hrg]
        · exact ⟨p, r, by rw [get?_modifyIdx_ne _ _ _ _ hpi]; exact hrg, hid, Or.inl hp⟩
    · rintro ⟨p, r, hrg, hid, hp | hpi⟩
      · by_cases hpi : p = i
        · subst hpi
          rw [get?_modifyIdx_self _ _ _ _ hg] at hrg
          injection hrg with hrg
          subst hrg
          exact Or.inl (by rw [← hid])
        · rw [get?_modifyIdx_ne _ _ _ _ hpi] at hrg
          exact Or.inr ⟨p, r, hrg, hid, hp⟩
      · subst hpi
        rw [get?_modifyIdx_self _ _ _ _ hg] at hrg
        injection hrg with hrg
        subst hrg
        exact Or.inl (by rw [← hid])

/-- The backward repair walk of `check_row_selection` (`check_previous = true`)
started inside a shaped state: it forces the working columns onto every
position from the drag-start position up to (excluding) the walk start, and
stops cleanly below. -/
theorem check_prev_clean :
    ∀ (fuel : Nat) (t : TableState Row F) (idx ds : Nat) (A : List F) (P : Nat → Prop),
    t.select_full_row = false →
    t.active_columns = A →
    SelShape t A P → ActShape t P →
    (∀ p, p < ds → p < idx → ¬ P p) →
    idx < fuel → idx < t.formatted_rows.length →
    ∃ t', check_row_selection t true idx ds fuel = some t' ∧
      SelShape t' A (fun p => P p ∨ (ds ≤ p ∧ p < idx)) ∧
      ActShape t' (fun p => P p ∨ (ds ≤ p ∧ p < idx)) ∧
      t'.formatted_rows.length = t.formatted_rows.length ∧
      t'.indexed_ids = t.indexed_ids ∧
      t'.active_columns = A ∧
      t'.select_full_row = false ∧
      t'.formatted_rows.map (fun r => r.id) = t.formatted_rows.map (fun r => r.id) := by
  intro fuel
  induction fuel with
  | zero =>
    intro t idx ds A P _ _ _ _ _ hfuel _
    omega
  | succ f ih =>
    intro t idx ds A P hfull hA hsh hac hstop hfuel hlen
    by_cases hidx0 : idx = 0
    · refine ⟨t, ?_, selShape_congr hsh (fun p => ?_), actShape_congr hac (fun p => ?_),
        rfl, rfl, hA, hfull, rfl⟩
      · simp only [check_row_selection]
        rw [if_pos ⟨hidx0, trivial⟩]
      · exact ⟨Or.inl, fun h => h.elim id (fun hc => by omega)⟩
      · exact ⟨Or.inl, fun h => h.elim id (fun hc => by omega)⟩
    · have hlen1 : idx - 1 < t.formatted_rows.length := by omega
      obtain ⟨cr, hg⟩ : ∃ cr, t.formatted_rows.get? (idx - 1) = some cr := by
        cases hx : t.formatted_rows.get? (idx - 1) with
        | none =>
          have hn := List.get?_eq_none.mp hx
          omega
        | some y => exact ⟨y, rfl⟩
      by_cases hforce : ds ≤ idx - 1
      · obtain ⟨hsh1, hac1⟩ := forced_step_shapes hg hfull hA hsh hac
        have hmapT1 : ∀ x : Unit, List.map (fun r => r.id)
            (modifyIdx t.formatted_rows (idx - 1) (fun r =>
              { r with selected_columns :=
                  if t.select_full_row = true then hsExtend r.selected_columns t.all_columns
                  else t.active_columns })) =
            List.map (fun r => r.id) t.formatted_rows := fun _ =>
          map_modifyIdx (fun r => r.id) (fun r =>
            { r with selected_columns :=
                if t.select_full_row = true then hsExtend r.selected_columns t.all_columns
                else t.active_columns })
            (fun r => rfl) t.formatted_rows (idx - 1)
        by_cases hz : idx - 1 = 0
        · refine ⟨_, ?_, selShape_congr hsh1 (fun p => ?_), actShape_congr hac1 (fun p => ?_),
            by dsimp only; rw [modifyIdx_length], rfl, hA, hfull, hmapT1 ()⟩
          · simp only [check_row_selection, if_true]
            rw [if_neg (fun hc => hidx0 hc.1), if_neg (fun hc => by simp at hc)]
            rw [hg]
            dsimp only
            rw [if_pos (Or.inl ⟨trivial, hforce⟩)]
            rw [if_pos (rfl : (false : Bool) = false)]
            rw [if_neg (not_not_intro hz)]
          · constructor
            · rintro (hp | hpi)
              · exact Or.inl hp
              · exact Or.inr ⟨by omega, by omega⟩
            · rintro (hp | ⟨h1, h2⟩)
              · exact Or.inl hp
              · exact Or.inr (by omega)
          · constructor
            · rintro (hp | hpi)
              · exact Or.inl hp
              · exact Or.inr ⟨by omega, by omega⟩
            · rintro (hp | ⟨h1, h2⟩)
              · exact Or.inl hp
              · exact Or.inr (by omega)
        · obtain ⟨t', hrun, hsh2, hac2, hlen2, hidx2, hA2, hfull2, hmap2⟩ :=
            ih { t with
                formatted_rows := modifyIdx t.formatted_rows (idx - 1) (fun r =>
                  { r with selected_columns := if t.select_full_row = true then
                      hsExtend r.selected_columns t.all_columns else t.active_columns })
                active_rows := hsInsert cr.id t.active_rows }
              (idx - 1) ds A (fun p => P p ∨ p = idx - 1) hfull hA hsh1 hac1
              (by
                rintro p hp1 hp2 (hp | hpi)
                · exact hstop p hp1 (by omega) hp
                · omega)
              (by omega)
              (by dsimp only; rw [modifyIdx_length]; omega)
          refine ⟨t', ?_, selShape_congr hsh2 (fun p => ?_), actShape_congr hac2 (fun p => ?_),
            by rw [hlen2]; dsimp only; rw [modifyIdx_length], hidx2, hA2, hfull2,
            hmap2.trans (hmapT1 ())⟩
          · simp only [check_row_selection, if_true]
            rw [if_neg (fun hc => hidx0 hc.1), if_neg (fun hc => by simp at hc)]
            rw [hg]
            dsimp only
            rw [if_pos (Or.inl ⟨trivial, hforce⟩)]
            rw [if_pos (rfl : (false : Bool) = false)]
            rw [if_pos hz]
            exact hrun
          · constructor
            · rintro ((hp | hpi) | ⟨h1, h2⟩)
              · exact Or.inl hp
              · exact Or.inr ⟨by omega, by omega⟩
              · exact Or.inr ⟨h1, by omega⟩
            · rintro (hp | ⟨h1, h2⟩)
              · exact Or.inl (Or.inl hp)
              · by_cases hpe : p = idx - 1
                · exact Or.inl (Or.inr hpe)
                · exact Or.inr ⟨h1, by omega⟩
          · constructor
            · rintro ((hp | hpi) | ⟨h1, h2⟩)
              · exact Or.inl hp
              · exact Or.inr ⟨by omega, by omega⟩
              · exact Or.inr ⟨h1, by omega⟩
            · rintro (hp | ⟨h1, h2⟩)
              · exact Or.inl (Or.inl hp)
              · by_cases hpe : p = idx - 1
                · exact Or.inl (Or.inr hpe)
                · exact Or.inr ⟨h1, by omega⟩
      · have hnp : ¬ P (idx - 1) := hstop (idx - 1) (by omega) (by omega)
        have hemp : cr.selected_columns = [] := (hsh (idx - 1) cr hg).2 hnp
        refine ⟨t, ?_, selShape_congr hsh (fun p => ?_), actShape_congr hac (fun p => ?_),
          rfl, rfl, hA, hfull, rfl⟩
        · simp only [check_row_selection, if_true]
          rw [if_neg (fun hc => hidx0 hc.1), if_neg (fun hc => by simp at hc)]
          rw [hg]
          dsimp only
          rw [show cr.selected_columns.isEmpty = true from by rw [hemp]; rfl]
          have hinner : (if True ∧ idx - 1 ≥ ds ∨ true = false ∧ idx - 1 ≤ ds
              then false else true) = true :=
            if_neg (by
              rintro (⟨_, hc⟩ | ⟨hc, _⟩)
              · exact hforce hc
              · exact Bool.noConfusion hc)
          rw [hinner]
          rw [if_neg (fun hc => Bool.noConfusion hc)]
        · exact ⟨Or.inl, fun h => h.elim id (fun hc => by omega)⟩
        · exact ⟨Or.inl, fun h => h.elim id (fun hc => by omega)⟩

/-- The forward repair walk of `check_row_selection` (`check_previous = false`)
started inside a shaped state: it forces the working columns onto every
position from just above the walk start down to the drag-start position, and
stops cleanly above. -/
theorem check_next_clean :
    ∀ (fuel : Nat) (t : TableState Row F) (idx ds : Nat) (A : List F) (P : Nat → Prop),
    t.select_full_row = false →
    t.active_columns = A →
    SelShape t A P → ActShape t P →
    (∀ p, ds < p → idx < p → ¬ P p) →
    t.formatted_rows.length ≤ idx + fuel →
    idx < t.formatted_rows.length → ds < t.formatted_rows.length →
    ∃ t', check_row_selection t false idx ds fuel = some t' ∧
      SelShape t' A (fun p => P p ∨ (idx < p ∧ p ≤ ds)) ∧
      ActShape t' (fun p => P p ∨ (idx < p ∧ p ≤ ds)) ∧
      t'.formatted_rows.length = t.formatted_rows.length ∧
      t'.indexed_ids = t.indexed_ids ∧
      t'.active_columns = A ∧
      t'.select_full_row = false ∧
      t'.formatted_rows.map (fun r => r.id) = t.formatted_rows.map (fun r => r.id) := by
  intro fuel
  induction fuel with
  | zero =>
    intro t idx ds A P _ _ _ _ _ hfuel hlen _
    omega
  | succ f ih =>
    intro t idx ds A P hfull hA hsh hac hstop hfuel hlen hds
    by_cases hend : idx + 1 = t.formatted_rows.length
    · refine ⟨t, ?_, selShape_congr hsh (fun p => ?_), actShape_congr hac (fun p => ?_),
        rfl, rfl, hA, hfull, rfl⟩
      · simp only [check_row_selection, Bool.false_eq_true, if_false, if_true, false_and,
          and_false, true_and, false_or, and_true]
        rw [if_pos hend]
      · exact ⟨Or.inl, fun h => h.elim id (fun hc => by omega)⟩
      · exact ⟨Or.inl, fun h => h.elim id (fun hc => by omega)⟩
    · have hlt1 : idx + 1 < t.formatted_rows.length := by omega
      obtain ⟨cr, hg⟩ : ∃ cr, t.formatted_rows.get? (idx + 1) = some cr := by
        cases hx : t.formatted_rows.get? (idx + 1) with
        | none =>
          have hn := List.get?_eq_none.mp hx
          omega
        | some y => exact ⟨y, rfl⟩
      by_cases hforce : idx + 1 ≤ ds
      · obtain ⟨hsh1, hac1⟩ := forced_step_shapes hg hfull hA hsh hac
        have hmapT1 : ∀ x : Unit, List.map (fun r => r.id)
            (modifyIdx t.formatted_rows (idx + 1) (fun r =>
              { r with selected_columns :=
                  if t.select_full_row = true then hsExtend r.selected_columns t.all_columns
                  else t.active_columns })) =
            List.map (fun r => r.id) t.formatted_rows := fun _ =>
          map_modifyIdx (fun r => r.id) (fun r =>
            { r with selected_columns :=
                if t.select_full_row = true then hsExtend r.selected_columns t.all_columns
                else t.active_columns })
            (fun r => rfl) t.formatted_rows (idx + 1)
        by_cases hz : idx + 1 + 1 = t.formatted_rows.length
        · refine ⟨_, ?_, selShape_congr hsh1 (fun p => ?_), actShape_congr hac1 (fun p => ?_),
            by dsimp only; rw [modifyIdx_length], rfl, hA, hfull, hmapT1 ()⟩
          · simp only [check_row_selection, Bool.false_eq_true, if_false, if_true, false_and,
              and_false, true_and, false_or, and_true]
            rw [if_neg hend]
            rw [hg]
            dsimp only
            rw [if_pos hforce]
            rw [if_pos (rfl : (false : Bool) = false)]
            rw [modifyIdx_length]
            rw [if_neg (not_not_intro hz)]
          · constructor
            · rintro (hp | hpi)
              · exact Or.inl hp
              · exact Or.inr ⟨by omega, by omega⟩
            · rintro (hp | ⟨h1, h2⟩)
              · exact Or.inl hp
              · exact Or.inr (by omega)
          · constructor
            · rintro (hp | hpi)
              · exact Or.inl hp
              · exact Or.inr ⟨by omega, by omega⟩
            · rintro (hp | ⟨h1, h2⟩)
              · exact Or.inl hp
              · exact Or.inr (by omega)
        · obtain ⟨t', hrun, hsh2, hac2, hlen2, hidx2, hA2, hfull2, hmap2⟩ :=
            ih { t with
                formatted_rows := modifyIdx t.formatted_rows (idx + 1) (fun r =>
                  { r with selected_columns := if t.select_full_row = true then
                      hsExtend r.selected_columns t.all_columns else t.active_columns })
                active_rows := hsInsert cr.id t.active_rows }
              (idx + 1) ds A (fun p => P p ∨ p = idx + 1) hfull hA hsh1 hac1
              (by
                rintro p hp1 hp2 (hp | hpi)
                · exact hstop p hp1 (by omega) hp
                · omega)
              (by dsimp only; rw [modifyIdx_length]; omega)
              (by dsimp only; rw [modifyIdx_length]; omega)
              (by dsimp only; rw [modifyIdx_length]; omega)
          refine ⟨t', ?_, selShape_congr hsh2 (fun p => ?_), actShape_congr hac2 (fun p => ?_),
            by rw [hlen2]; dsimp only; rw [modifyIdx_length], hidx2, hA2, hfull2,
            hmap2.trans (hmapT1 ())⟩
          · simp only [check_row_selection, Bool.false_eq_true, if_false, if_true, false_and,
              and_false, true_and, false_or, and_true]
            rw [if_neg hend]
            rw [hg]
            dsimp only
            rw [if_pos hforce]
            rw [if_pos (rfl : (false : Bool) = false)]
            rw [modifyIdx_length]
            rw [if_pos hz]
            exact hrun
          · constructor
            · rintro ((hp | hpi) | ⟨h1, h2⟩)
              · exact Or.inl hp
              · exact Or.inr ⟨by omega, by omega⟩
              · exact Or.inr ⟨by omega, h2⟩
            · rintro (hp | ⟨h1, h2⟩)
              · exact Or.inl (Or.inl hp)
              · by_cases hpe : p = idx + 1
                · exact Or.inl (Or.inr hpe)
                · exact Or.inr ⟨by omega, h2⟩
          · constructor
            · rintro ((hp | hpi) | ⟨h1, h2⟩)
              · exact Or.inl hp
              · exact Or.inr ⟨by omega, by omega⟩
              · exact Or.inr ⟨by omega, h2⟩
            · rintro (hp | ⟨h1, h2⟩)
              · exact Or.inl (Or.inl hp)
              · by_cases hpe : p = idx + 1
                · exact Or.inl (Or.inr hpe)
                · exact Or.inr ⟨by omega, h2⟩
      · have hnp : ¬ P (idx + 1) := hstop (idx + 1) (by omega) (by omega)
        have hemp : cr.selected_columns = [] := (hsh (idx + 1) cr hg).2 hnp
        refine ⟨t, ?_, selShape_congr hsh (fun p => ?_), actShape_congr hac (fun p => ?_),
          rfl, rfl, hA, hfull, rfl⟩
        · simp only [check_row_selection, Bool.false_eq_true, if_false, if_true, false_and,
            and_false, true_and, false_or, and_true]
          rw [if_neg hend]
          rw [hg]
          dsimp only
          rw [show cr.selected_columns.isEmpty = true from by rw [hemp]; rfl]
          have hinner : (if idx + 1 ≤ ds then false else true) = true := if_neg hforce
          rw [hinner]
          rw [if_neg (fun hc => Bool.noConfusion hc)]
        · exact ⟨Or.inl, fun h => h.elim id (fun hc => by omega)⟩
        · exact ⟨Or.inl, fun h => h.elim id (fun hc => by omega)⟩

theorem option_id_of_map_eq {t t' : TableState Row F}
    (hmap : t'.formatted_rows.map (fun r => r.id) = t.formatted_rows.map (fun r => r.id)) :
    ∀ p, (t'.formatted_rows.get? p).map (fun r => r.id) =
      (t.formatted_rows.get? p).map (fun r => r.id) := by
  intro p
  rw [← List.get?_map, ← List.get?_map, hmap]

theorem exists_row_of_map_eq {t t' : TableState Row F}
    (hmap : t'.formatted_rows.map (fun r => r.id) = t.formatted_rows.map (fun r => r.id))
    {j : Int} {P : Nat → Prop}
    (h : ∃ p r, t.formatted_rows.get? p = some r ∧ r.id = j ∧ P p) :
    ∃ p r, t'.formatted_rows.get? p = some r ∧ r.id = j ∧ P p := by
  obtain ⟨p, r, hgp, hid, hp⟩ := h
  have hopt := option_id_of_map_eq hmap p
  rw [hgp] at hopt
  cases hx : t'.formatted_rows.get? p with
  | none =>
    rw [hx] at hopt
    exact absurd hopt (by simp)
  | some r2 =>
    rw [hx] at hopt
    refine ⟨p, r2, hx, ?_, hp⟩
    have : r2.id = r.id := by
      injection hopt with h2
    rw [this, hid]

theorem actShape_of_map_eq {t t' : TableState Row F} {P : Nat → Prop}
    (hmap : t'.formatted_rows.map (fun r => r.id) = t.formatted_rows.map (fun r => r.id))
    (hact : t'.active_rows = t.active_rows)
    (hac : ActShape t P) : ActShape t' P := by
  intro j
  rw [hact, hac j]
  constructor
  · intro h
    exact exists_row_of_map_eq hmap h
  · intro h
    exact exists_row_of_map_eq hmap.symm h

/-- The `remove_row_selection` loop in the clean single-move run: every
iterated row is inside the drag span, so each just has the working column set
re-applied and the shapes are preserved verbatim. -/
theorem removeRowLoop_exact :
    ∀ (l : List Int) (t : TableState Row F) (ci ds : Nat) (A : List F) (P : Nat → Prop),
    t.select_full_row = false →
    t.active_columns = A →
    t.indexed_ids = idxPairs (fun r => r.id) t.formatted_rows →
    (t.formatted_rows.map (fun r => r.id)).Nodup →
    SelShape t A P → ActShape t P →
    (∀ p, P p → btw ds ci p) →
    (∀ j ∈ l, ∃ p r, t.formatted_rows.get? p = some r ∧ r.id = j ∧ P p) →
    ∃ t', removeRowLoop ci ds false t l = some t' ∧
      SelShape t' A P ∧ ActShape t' P ∧
      t'.active_rows = t.active_rows ∧
      t'.active_columns = A ∧
      t'.formatted_rows.map (fun r => r.id) = t.formatted_rows.map (fun r => r.id) ∧
      t'.indexed_ids = t.indexed_ids := by
  intro l
  induction l with
  | nil =>
    intro t ci ds A P _ hA _ _ hsh hac _ _
    exact ⟨t, rfl, hsh, hac, rfl, hA, rfl, rfl⟩
  | cons j l ih =>
    intro t ci ds A P hfull hA hidx hids hsh hac hspan hmem
    obtain ⟨p, r, hgp, hidr, hP⟩ := hmem j (List.mem_cons_self j l)
    have halook : alookup j t.indexed_ids = some p := by
      rw [hidx, idxPairs, ← hidr]
      simpa using alookup_idxPairsFrom_of_get (fun r => r.id) t.formatted_rows 0 p r hids hgp
    have hbtw := hspan p hP
    have hmapT1 : ∀ x : Unit, List.map (fun r2 => r2.id)
        (modifyIdx t.formatted_rows p (fun r2 =>
          { r2 with selected_columns :=
              if t.select_full_row = true then hsExtend r.selected_columns t.all_columns
              else t.active_columns })) =
        List.map (fun r2 => r2.id) t.formatted_rows := fun _ =>
      map_modifyIdx (fun r2 => r2.id) (fun r2 =>
        { r2 with selected_columns :=
            if t.select_full_row = true then hsExtend r.selected_columns t.all_columns
            else t.active_columns })
        (fun r2 => rfl) t.formatted_rows p
    have hsh1 : SelShape { t with
        formatted_rows := modifyIdx t.formatted_rows p (fun r2 =>
          { r2 with selected_columns :=
              if t.select_full_row = true then hsExtend r.selected_columns t.all_columns
              else t.active_columns }) } A P := by
      intro p0 r0 hg0
      dsimp only at hg0
      by_cases hpe : p0 = p
      · subst hpe
        rw [get?_modifyIdx_self _ _ _ _ hgp] at hg0
        injection hg0 with hg0
        subst hg0
        refine ⟨fun _ => ?_, fun hq => absurd hP hq⟩
        dsimp only
        rw [hfull, if_neg (fun hcon => Bool.noConfusion hcon), hA]
      · rw [get?_modifyIdx_ne _ _ _ _ hpe] at hg0
        exact hsh p0 r0 hg0
    have hac1 : ActShape { t with
        formatted_rows := modifyIdx t.formatted_rows p (fun r2 =>
          { r2 with selected_columns :=
              if t.select_full_row = true then hsExtend r.selected_columns t.all_columns
              else t.active_columns }) } P :=
      actShape_of_map_eq (hmapT1 ()) rfl hac
    obtain ⟨t', hrun, hsh2, hac2, hact2, hA2, hmap2, hidx2⟩ :=
      ih { t with
          formatted_rows := modifyIdx t.formatted_rows p (fun r2 =>
            { r2 with selected_columns :=
                if t.select_full_row = true then hsExtend r.selected_columns t.all_columns
                else t.active_columns }) }
        ci ds A P hfull hA
        (by
          dsimp only
          rw [hidx]
          unfold idxPairs
          exact idxPairsFrom_map_eq (fun r2 : SelectableRow Row F => r2.id) _ _ 0
            (hmapT1 ()).symm)
        (by dsimp only; rw [hmapT1 ()]; exact hids)
        hsh1 hac1 hspan
        (fun j2 hj2 => exists_row_of_map_eq (hmapT1 ()) (hmem j2 (List.mem_cons_of_mem j hj2)))
    refine ⟨t', ?_, hsh2, hac2, hact2, hA2, hmap2.trans (hmapT1 ()), hidx2⟩
    simp only [removeRowLoop]
    rw [halook]
    dsimp only
    rw [hgp]
    dsimp only
    by_cases hgt : ci > ds
    · rw [if_pos hgt]
      rw [if_pos (show p ≥ ds ∧ p ≤ ci from by unfold btw at hbtw; omega)]
      exact hrun
    · rw [if_neg hgt]
      rw [if_pos (show p ≤ ds ∧ p ≥ ci from by unfold btw at hbtw; omega)]
      exact hrun

/-- The row phase of the first processed move of a clean drag: starting from an
unselected snapshot with empty active set, a move on row `r2` produces exactly
the rows between the drag-start position and the current position carrying the
working column set, all of them active. -/
theorem dragTail_first_move {s S1 : TableState Row F} {r1 r2 : Int} {c1 : F} {c2 : F}
    {p1 p2 : Nat} {A : List F} {s' : TableState Row F}
    (hidx1 : s.indexed_ids = idxPairs (fun r => r.id) s.formatted_rows)
    (hids : (s.formatted_rows.map (fun r => r.id)).Nodup)
    (hclean : ∀ r ∈ s.formatted_rows, r.selected_columns = [])
    (hp1 : alookup r1 s.indexed_ids = some p1)
    (hp2 : alookup r2 s.indexed_ids = some p2)
    (h1 : S1.formatted_rows = s.formatted_rows)
    (h2 : S1.indexed_ids = s.indexed_ids)
    (h3 : S1.active_rows = [])
    (h4 : S1.active_columns = A)
    (h6 : S1.select_full_row = false)
    (hrun : dragTail r2 c2 false (r1, c1) S1 = some s') :
    s'.active_columns = A ∧
    SelShape s' A (fun p => btw p1 p2 p) ∧
    ActShape s' (fun p => btw p1 p2 p) ∧
    s'.formatted_rows.map (fun r => r.id) = s.formatted_rows.map (fun r => r.id) := by
  obtain ⟨row2, hget2, hid2⟩ : ∃ row2, s.formatted_rows.get? p2 = some row2 ∧ row2.id = r2 := by
    rw [hidx1, idxPairs] at hp2
    obtain ⟨j, a, hg, hf, hj⟩ := alookup_idxPairsFrom_some (fun r => r.id) s.formatted_rows 0 r2 p2 hp2
    have : j = p2 := by omega
    subst this
    exact ⟨a, hg, hf⟩
  obtain ⟨row1, hget1, hid1⟩ : ∃ row1, s.formatted_rows.get? p1 = some row1 ∧ row1.id = r1 := by
    rw [hidx1, idxPairs] at hp1
    obtain ⟨j, a, hg, hf, hj⟩ := alookup_idxPairsFrom_some (fun r => r.id) s.formatted_rows 0 r1 p1 hp1
    have : j = p1 := by omega
    subst this
    exact ⟨a, hg, hf⟩
  have hlen2 : p2 < s.formatted_rows.length := (List.get?_eq_some.mp hget2).1
  have hlen1 : p1 < s.formatted_rows.length := (List.get?_eq_some.mp hget1).1
  simp only [dragTail] at hrun
  rw [h2, hp2] at hrun
  dsimp only at hrun
  rw [h1, hget2] at hrun
  dsimp only at hrun
  rw [h3, h4, h6] at hrun
  rw [show row2.selected_columns.contains c2 = false from by
    rw [hclean row2 (List.get?_mem hget2)]; rfl] at hrun
  rw [if_neg (fun hc => Bool.noConfusion hc.1)] at hrun
  dsimp only at hrun
  simp only [dragFinish, Bool.false_eq_true, if_false, if_true, false_and, and_false,
    true_and, false_or, and_true] at hrun
  rw [hp2] at hrun
  dsimp only at hrun
  rw [hp1] at hrun
  dsimp only at hrun
  have hsh1 : SelShape { S1 with
      formatted_rows := modifyIdx s.formatted_rows p2 (fun r =>
        { r with selected_columns := A })
      active_columns := A
      active_rows := hsInsert row2.id []
      last_active_row := some r2
      last_active_column := some c2
      indexed_ids := s.indexed_ids
      select_full_row := false } A (fun p => p = p2) := by
    intro p r0 hg0
    dsimp only at hg0
    by_cases hpe : p = p2
    · subst hpe
      rw [get?_modifyIdx_self _ _ _ _ hget2] at hg0
      injection hg0 with hg0
      subst hg0
      exact ⟨fun _ => rfl, fun hq => absurd rfl hq⟩
    · rw [get?_modifyIdx_ne _ _ _ _ hpe] at hg0
      exact ⟨fun hq => absurd hq hpe, fun _ => hclean r0 (List.get?_mem hg0)⟩
  have hac1 : ActShape { S1 with
      formatted_rows := modifyIdx s.formatted_rows p2 (fun r =>
        { r with selected_columns := A })
      active_columns := A
      active_rows := hsInsert row2.id []
      last_active_row := some r2
      last_active_column := some c2
      indexed_ids := s.indexed_ids
      select_full_row := false } (fun p => p = p2) := by
    intro j
    dsimp only
    rw [hsInsert_mem]
    constructor
    · rintro (hj | hj)
      · refine ⟨p2, _, get?_modifyIdx_self _ _ _ _ hget2, ?_, rfl⟩
        rw [hj]
      · exact absurd hj (List.not_mem_nil j)
    · rintro ⟨p, r0, hg0, hid0, hp0⟩
      subst hp0
      rw [get?_modifyIdx_self _ _ _ _ hget2] at hg0
      injection hg0 with hg0
      subst hg0
      exact Or.inl (by rw [← hid0])
  obtain ⟨ta, hc1run, hsha, haca, hlena, hidxa, hAa, hfulla, hmapa⟩ :=
    check_prev_clean (modifyIdx s.formatted_rows p2 (fun r =>
        { r with selected_columns := A })).length
      { S1 with
        formatted_rows := modifyIdx s.formatted_rows p2 (fun r =>
          { r with selected_columns := A })
        active_columns := A
        active_rows := hsInsert row2.id []
        last_active_row := some r2
        last_active_column := some c2
        indexed_ids := s.indexed_ids
        select_full_row := false }
      p2 p1 A (fun p => p = p2) rfl rfl hsh1 hac1
      (fun p _ hplt hpe => by omega)
      (by rw [modifyIdx_length]; omega)
      (by dsimp only; rw [modifyIdx_length]; omega)
  rw [hc1run] at hrun
  dsimp only at hrun
  obtain ⟨tb, hc2run, hshb, hacb, hlenb, hidxb, hAb, hfullb, hmapb⟩ :=
    check_next_clean ta.formatted_rows.length ta p2 p1 A
      (fun p => (p = p2) ∨ (p1 ≤ p ∧ p < p2)) hfulla hAa hsha haca
      (fun p hgt1 hgt2 hP => by
        rcases hP with hpe | ⟨hle, hlt⟩ <;> omega)
      (by omega)
      (by
        rw [hlena]
        dsimp only
        rw [modifyIdx_length]
        exact hlen2)
      (by
        rw [hlena]
        dsimp only
        rw [modifyIdx_length]
        exact hlen1)
  rw [hc2run] at hrun
  dsimp only at hrun
  rw [remove_row_selection] at hrun
  have hmapbs : tb.formatted_rows.map (fun r => r.id) = s.formatted_rows.map (fun r => r.id) := by
    rw [hmapb, hmapa]
    dsimp only
    exact map_modifyIdx (fun r => r.id) (fun r => { r with selected_columns := A })
      (fun r => rfl) s.formatted_rows p2
  have hbtwP : ∀ p, (((p = p2) ∨ (p1 ≤ p ∧ p < p2)) ∨ (p2 < p ∧ p ≤ p1)) ↔ btw p1 p2 p := by
    intro p
    unfold btw
    constructor
    · rintro ((hpe | ⟨ha, hb⟩) | ⟨ha, hb⟩) <;> constructor <;> omega
    · rintro ⟨ha, hb⟩
      rcases Nat.lt_trichotomy p p2 with hlt | heq | hgt
      · exact Or.inl (Or.inr ⟨by omega, hlt⟩)
      · exact Or.inl (Or.inl heq)
      · exact Or.inr ⟨hgt, by omega⟩
  have hshb2 := selShape_congr hshb hbtwP
  have hacb2 := actShape_congr hacb hbtwP
  obtain ⟨t', hrrun, hsh3, hac3, hact3, hA3, hmap3, hidx3⟩ :=
    removeRowLoop_exact tb.active_rows tb p2 p1 A (fun p => btw p1 p2 p)
      hfullb hAb
      (by
        rw [hidxb, hidxa]
        dsimp only
        rw [hidx1]
        unfold idxPairs
        exact idxPairsFrom_map_eq (fun r : SelectableRow Row F => r.id) _ _ 0 hmapbs.symm)
      (by rw [hmapbs]; exact hids)
      hshb2 hacb2
      (fun p hp => hp)
      (fun j hj => ((hacb2 j).mp hj))
  rw [hrrun] at hrun
  injection hrun with hrun
  subst hrun
  exact ⟨hA3, hsh3, hac3, hmap3.trans hmapbs⟩

/-- C1 (amended): the drag-span exactness holds for the first processed move of
an unmodified drag gesture. Starting from the state `handle_table_body`
guarantees on an unmodified drag start — nothing selected, no active rows, no
last-touched cell — a processed move on cell (`r2`, `c2`) of a drag started on
(`r1`, `c1`) makes the active rows exactly the rows whose snapshot position
lies between the two rows' positions inclusive, each carrying exactly the
columns whose fixed column position lies between the two columns' positions
inclusive. For later moves of a gesture the original claim fails (see the
counterexample: a cross-row move leaves the last-touched column stale and the
next move on that remembered cell is swallowed by the dedupe early-return). -/
theorem first_drag_move_span_exact (s : TableState Row F) (r1 r2 : Int) (c1 c2 : F)
    (p1 p2 n1 n2 : Nat) (s' : TableState Row F)
    (hcols : WFcols s) (hidx : WFidx s)
    (hclean : ∀ r ∈ s.formatted_rows, r.selected_columns = [])
    (hactive : s.active_rows = [])
    (hlast : s.last_active_row = none)
    (hdso : s.drag_started_on = some (r1, c1))
    (hfull : s.select_full_row = false)
    (hp1 : alookup r1 s.indexed_ids = some p1)
    (hp2 : alookup r2 s.indexed_ids = some p2)
    (hn1 : alookup c1 s.column_number = some n1)
    (hn2 : alookup c2 s.column_number = some n2)
    (hrun : select_dragged_row_cell s r2 c2 false = some s') :
    (∀ col, col ∈ s'.active_columns ↔
      ∃ n, alookup col s.column_number = some n ∧ btw n1 n2 n) ∧
    (∀ p r', s'.formatted_rows.get? p = some r' →
      (btw p1 p2 p → r'.selected_columns = s'.active_columns) ∧
      (¬ btw p1 p2 p → r'.selected_columns = [])) ∧
    (∀ j, j ∈ s'.active_rows ↔
      ∃ p r0, s.formatted_rows.get? p = some r0 ∧ r0.id = j ∧ btw p1 p2 p) := by
  obtain ⟨hidx1, hids⟩ := hidx
  obtain ⟨row2, hget2, hid2⟩ : ∃ row2, s.formatted_rows.get? p2 = some row2 ∧ row2.id = r2 := by
    rw [hidx1, idxPairs] at hp2
    obtain ⟨j, a, hg, hf, hj⟩ :=
      alookup_idxPairsFrom_some (fun r => r.id) s.formatted_rows 0 r2 p2 hp2
    have : j = p2 := by omega
    subst this
    exact ⟨a, hg, hf⟩
  have hp2' : alookup r2 s.indexed_ids = some p2 := by
    rw [hidx1, idxPairs, ← hid2]
    simpa using alookup_idxPairsFrom_of_get (fun r => r.id) s.formatted_rows 0 p2 row2 hids hget2
  have hnemp : s.formatted_rows.isEmpty = false := by
    cases hx : s.formatted_rows with
    | nil =>
      rw [hx] at hget2
      exact absurd hget2 (by simp)
    | cons a l => rfl
  have hcol1 : s.all_columns.get? n1 = some c1 := get_of_colnum s hcols hn1
  have hcol2 : s.all_columns.get? n2 = some c2 := get_of_colnum s hcols hn2
  have hn1len : n1 < s.all_columns.length := (List.get?_eq_some.mp hcol1).1
  have hn2len : n2 < s.all_columns.length := (List.get?_eq_some.mp hcol2).1
  simp only [select_dragged_row_cell, column_to_num, Bool.false_eq_true, if_false, if_true,
    false_and, and_false, true_and, false_or, and_true] at hrun
  rw [if_neg (fun hc => by rw [hlast] at hc; exact Option.noConfusion hc.1)] at hrun
  rw [hnemp] at hrun
  rw [if_neg (fun hc => Bool.noConfusion hc)] at hrun
  rw [hdso] at hrun
  dsimp only at hrun
  rw [hn1] at hrun
  dsimp only at hrun
  rw [hn2] at hrun
  dsimp only at hrun
  have hfinish : ∀ (A : List F),
      (∀ x, x ∈ A ↔ ∃ n, alookup x s.column_number = some n ∧ btw n1 n2 n) →
      ∀ (S1 : TableState Row F),
      S1.formatted_rows = s.formatted_rows → S1.indexed_ids = s.indexed_ids →
      S1.active_rows = [] → S1.active_columns = A → S1.select_full_row = false →
      dragTail r2 c2 false (r1, c1) S1 = some s' →
      (∀ col, col ∈ s'.active_columns ↔
        ∃ n, alookup col s.column_number = some n ∧ btw n1 n2 n) ∧
      (∀ p r', s'.formatted_rows.get? p = some r' →
        (btw p1 p2 p → r'.selected_columns = s'.active_columns) ∧
        (¬ btw p1 p2 p → r'.selected_columns = [])) ∧
      (∀ j, j ∈ s'.active_rows ↔
        ∃ p r0, s.formatted_rows.get? p = some r0 ∧ r0.id = j ∧ btw p1 p2 p) := by
    intro A hAchar S1 k1 k2 k3 k4 k6 hrun2
    obtain ⟨hAcol, hsh, hac, hmap⟩ :=
      dragTail_first_move hidx1 hids hclean hp1 hp2' k1 k2 k3 k4 k6 hrun2
    refine ⟨?_, ?_, ?_⟩
    · intro col
      rw [hAcol]
      exact hAchar col
    · intro p r' hg'
      obtain ⟨hs1, hs2⟩ := hsh p r' hg'
      refine ⟨fun hb => ?_, hs2⟩
      rw [hAcol]
      exact hs1 hb
    · intro j
      rw [hac j]
      exact ⟨fun h => exists_row_of_map_eq hmap.symm h, fun h => exists_row_of_map_eq hmap h⟩
  by_cases hOrd : n2 = n1
  · subst hOrd
    rw [if_pos rfl] at hrun
    dsimp only at hrun
    refine hfinish (hsInsert c1 []) ?_ _ ?_ ?_ ?_ ?_ ?_ hrun
    · intro x
      rw [hsInsert_mem]
      constructor
      · rintro (hx | hx)
        · subst hx
          exact ⟨n2, hn1, by unfold btw; omega⟩
        · exact absurd hx (List.not_mem_nil x)
      · rintro ⟨n, hxn, hb⟩
        have hnn : n = n2 := by unfold btw at hb; omega
        subst hnn
        have := get_of_colnum s hcols hxn
        rw [this] at hcol1
        injection hcol1 with h
        exact Or.inl h
    · rfl
    · rfl
    · exact hactive
    · rfl
    · exact hfull
  · by_cases hlt : n1 < n2
    · rw [if_neg hOrd] at hrun
      rw [show decide (n2 > n1) = true from decide_eq_true hlt] at hrun
      obtain ⟨A, hswrun, hmemA⟩ :=
        spanWalk_asc { s with
            drag_started_on := some (r1, c1)
            active_columns := hsInsert c2 s.active_columns
            beyond_drag_point := true }
          hcols c2 n2 hcol2 (s.all_columns.length + 1) n1 c1 [] hcol1 hlt (by omega)
      rw [hswrun] at hrun
      dsimp only at hrun
      refine hfinish A ?_ _ ?_ ?_ ?_ ?_ ?_ hrun
      · intro x
        rw [hmemA x]
        constructor
        · rintro (hx | ⟨k, hk1, hk2, hk3⟩)
          · exact absurd hx (List.not_mem_nil x)
          · exact ⟨k, colnum_of_get s hcols.2.1 hcols.2.2 k x hk3, by unfold btw; omega⟩
        · rintro ⟨n, hxn, hb⟩
          refine Or.inr ⟨n, by unfold btw at hb; omega, by unfold btw at hb; omega,
            get_of_colnum s hcols hxn⟩
      · rfl
      · rfl
      · exact hactive
      · rfl
      · exact hfull
    · have hgt : n2 < n1 := by omega
      rw [if_neg hOrd] at hrun
      rw [show decide (n2 > n1) = false from decide_eq_false (by omega)] at hrun
      obtain ⟨A, hswrun, hmemA⟩ :=
        spanWalk_desc { s with
            drag_started_on := some (r1, c1)
            active_columns := hsInsert c2 s.active_columns
            beyond_drag_point := true }
          hcols c2 n2 hcol2 (s.all_columns.length + 1) n1 c1 [] hcol1 hgt (by omega)
      rw [hswrun] at hrun
      dsimp only at hrun
      refine hfinish A ?_ _ ?_ ?_ ?_ ?_ ?_ hrun
      · intro x
        rw [hmemA x]
        constructor
        · rintro (hx | ⟨k, hk1, hk2, hk3⟩)
          · exact absurd hx (List.not_mem_nil x)
          · exact ⟨k, colnum_of_get s hcols.2.1 hcols.2.2 k x hk3, by unfold btw; omega⟩
        · rintro ⟨n, hxn, hb⟩
          refine Or.inr ⟨n, by unfold btw at hb; omega, by unfold btw at hb; omega,
            get_of_colnum s hcols hxn⟩
      · rfl
      · rfl
      · exact hactive
      · rfl
      · exact hfull

/-- C1 witness: the amended theorem applies to the first move (row id 2,
column 3) of the concrete clean drag started on (row id 0, column 0). -/
theorem first_drag_move_span_exact_witness :
    ∃ s' : TableState Nat Nat, select_dragged_row_cell c1_start 2 3 false = some s' ∧
      (∀ j, j ∈ s'.active_rows ↔
        ∃ p r0, c1_start.formatted_rows.get? p = some r0 ∧ r0.id = j ∧ btw 0 2 p) := by
  cases hrun : select_dragged_row_cell c1_start 2 3 false with
  | none => exact absurd hrun (by decide)
  | some s2 =>
    exact ⟨s2, rfl, (first_drag_move_span_exact c1_start 0 2 0 3 0 2 0 3 s2 (by decide)
      (by decide) (by decide) (by decide) (by decide) (by decide) (by decide) (by decide)
      (by decide) (by decide) (by decide) hrun).2.2⟩

end EguiSelectableTable
